import Mathlib

/-!
# memorydb: an in-memory key-value store with per-key expiration

A shallow embedding of `memorydb.go`.  The store is a record holding the
entry map, the `closed` flag and the state of the stop channel; every
method becomes a function from the store before the call (and the clock
reading the call observes) to the returned values and the store after
the call.  Every method body runs as one atomic step; what a method does
to the mutex is recorded apart, as its sequence of lock events (section
Locking).  The wait group is left out.

* `map[string]item` is a `Finmap` keyed by `String` (finite, unordered,
  extensional).
* `int64` values are `Int`; the two arithmetic operations of the source
  (`+` and `*` on `int64`) wrap around modulo `2^64`.
* `time.Now().UnixNano()` is a parameter `now : Int` of the call.
* `error` is `Option Error` (`none` is `nil`); the pair
  `(interface{}, error)` returned by `Get` is `Except Error V`, since the
  source returns a `nil` value with every error.
* The payload type `V` is a parameter; for the generic functions `Set[T]`
  and `Get[T]` it is instantiated with a model of `interface{}` values.
-/

namespace memorydb

/-! ## int64 arithmetic -/

/-- Smallest `int64`. -/
def minInt64 : Int := -9223372036854775808

/-- Largest `int64`. -/
def maxInt64 : Int := 9223372036854775807

/-- Reduction of an integer to the `int64` that Go arithmetic yields for it
(two's complement wrap-around). -/
def wrapInt64 (x : Int) : Int := (x + 9223372036854775808) % 18446744073709551616 - 9223372036854775808

/-- Go `a + b` on `int64`. -/
def addInt64 (a b : Int) : Int := wrapInt64 (a + b)

/-- Go `a * b` on `int64`. -/
def mulInt64 (a b : Int) : Int := wrapInt64 (a * b)

/-- The constant `int64(time.Second)`: nanoseconds in a second. -/
def Second : Int := 1000000000

/-- An integer is representable as an `int64`. -/
def inInt64 (x : Int) : Prop := minInt64 ≤ x ∧ x ≤ maxInt64

instance (x : Int) : Decidable (inInt64 x) := by
  unfold inInt64; infer_instance

/-! ## Data model -/

/-- The package-level error values `ErrKeyNotFound`, `ErrKeyExpired`,
`ErrDBClosed`, `ErrTypeAssertionFail`. -/
inductive Error where
  | ErrKeyNotFound
  | ErrKeyExpired
  | ErrDBClosed
  | ErrTypeAssertionFail
deriving DecidableEq, Repr

deriving instance DecidableEq for Except

/-- The struct `item`: a payload and its absolute expiration in Unix
nanoseconds. -/
structure item (V : Type) where
  value : V
  expiration : Int
deriving DecidableEq, Repr

/-- The struct `MemoryDB`.  `stopCh` is `true` once the channel `stopCh` has
been closed. -/
structure MemoryDB (V : Type) where
  data : Finmap (fun _ : String => item V)
  closed : Bool
  stopCh : Bool
deriving DecidableEq

/-- The condition `it.expiration > 0 && time.Now().UnixNano() > it.expiration`
used by `Get` and by the sweep. -/
def item.expiredAt {V : Type} (it : item V) (now : Int) : Bool :=
  decide (it.expiration > 0) && decide (now > it.expiration)

/-- The expiration computed by `Set` and `Expire`:
`expiration := int64(0); if ttl > 0 { expiration = now + ttl*int64(time.Second) }`. -/
def expirationFor (ttl now : Int) : Int :=
  if ttl > 0 then addInt64 now (mulInt64 ttl Second) else 0

/-! ## Operations -/

/-- `NewMemoryDB`: an empty map, `closed` false, the stop channel open. -/
def NewMemoryDB (V : Type) : MemoryDB V :=
  { data := ∅, closed := false, stopCh := false }

/-- `(*MemoryDB).Set` at clock reading `now`. -/
def MemoryDB.Set {V : Type} (db : MemoryDB V) (key : String) (value : V) (ttl : Int)
    (now : Int) : Option Error × MemoryDB V :=
  if db.closed then
    (some Error.ErrDBClosed, db)
  else
    let expiration := expirationFor ttl now
    (none, { db with data := db.data.insert key { value := value, expiration := expiration } })

/-- `(*MemoryDB).Get` at clock reading `now`. -/
def MemoryDB.Get {V : Type} (db : MemoryDB V) (key : String) (now : Int) :
    Except Error V × MemoryDB V :=
  if db.closed then
    (Except.error Error.ErrDBClosed, db)
  else
    match db.data.lookup key with
    | none => (Except.error Error.ErrKeyNotFound, db)
    | some it =>
      if it.expiredAt now then
        (Except.error Error.ErrKeyExpired, { db with data := db.data.erase key })
      else
        (Except.ok it.value, db)

/-- `(*MemoryDB).Del`. -/
def MemoryDB.Del {V : Type} (db : MemoryDB V) (key : String) : Option Error × MemoryDB V :=
  if db.closed then
    (some Error.ErrDBClosed, db)
  else
    (none, { db with data := db.data.erase key })

/-- `(*MemoryDB).Expire` at clock reading `now`. -/
def MemoryDB.Expire {V : Type} (db : MemoryDB V) (key : String) (ttl : Int) (now : Int) :
    Option Error × MemoryDB V :=
  if db.closed then
    (some Error.ErrDBClosed, db)
  else
    match db.data.lookup key with
    | none => (some Error.ErrKeyNotFound, db)
    | some it =>
      let it1 : item V := { it with expiration := expirationFor ttl now }
      (none, { db with data := db.data.insert key it1 })

/-- The body of the range loop of `cleanupExpiredKeys` for one visited
entry: the entry is deleted from the map when it is expired at the clock
reading taken while visiting it. -/
def sweepEntry {V : Type} (clock : String → Int) (m : Finmap (fun _ : String => item V))
    (key : String) (it : item V) : Finmap (fun _ : String => item V) :=
  if it.expiredAt (clock key) then m.erase key else m

/-- One tick of `cleanupExpiredKeys` (the `case <-ticker.C` branch): every
entry of the map is visited once, in any order, and deleted if expired.
`clock key` is the reading of `time.Now().UnixNano()` taken while visiting
`key`; a tick at a single time `s` is `fun _ => s`.  The fold over the
unordered map asks for a proof that visiting two entries in either order
gives the same map, which holds because deletions commute: the result does
not depend on the iteration order. -/
def MemoryDB.cleanupTick {V : Type} (db : MemoryDB V) (clock : String → Int) : MemoryDB V :=
  { db with
    data := db.data.foldl (sweepEntry clock)
      (fun m k1 i1 k2 i2 => by
        unfold sweepEntry
        by_cases h1 : i1.expiredAt (clock k1) <;> by_cases h2 : i2.expiredAt (clock k2) <;>
          simp [h1, h2, Finmap.erase_erase])
      db.data }

/-- How a call of `Close` ends: it returns, or it panics; in both cases
with the store as it is at that point. -/
inductive CloseResult (V : Type) where
  | returned (db : MemoryDB V)
  | panicked (db : MemoryDB V)

/-- `(*MemoryDB).Close`: sets `closed`, closes `stopCh` (closing a closed
channel panics), waits for the sweeper, replaces the map by an empty one. -/
def MemoryDB.Close {V : Type} (db : MemoryDB V) : CloseResult V :=
  let db1 : MemoryDB V := { db with closed := true }
  if db1.stopCh then
    CloseResult.panicked db1
  else
    let db2 : MemoryDB V := { db1 with stopCh := true }
    CloseResult.returned { db2 with data := ∅ }

/-! ## Sequences of operations -/

/-- One operation on the store, with the clock readings it observes. -/
inductive Op (V : Type) where
  | set (key : String) (value : V) (ttl : Int) (now : Int)
  | get (key : String) (now : Int)
  | del (key : String)
  | expire (key : String) (ttl : Int) (now : Int)
  | tick (clock : String → Int)
  | close

/-- The store after one operation; `none` when the operation panics. -/
def step {V : Type} (db : MemoryDB V) : Op V → Option (MemoryDB V)
  | Op.set key value ttl now => some (db.Set key value ttl now).2
  | Op.get key now => some (db.Get key now).2
  | Op.del key => some (db.Del key).2
  | Op.expire key ttl now => some (db.Expire key ttl now).2
  | Op.tick clock => some (db.cleanupTick clock)
  | Op.close =>
    match db.Close with
    | CloseResult.returned db1 => some db1
    | CloseResult.panicked _ => none

/-- The store after a sequence of operations, performed left to right;
`none` when one of them panics. -/
def run {V : Type} (db : MemoryDB V) : List (Op V) → Option (MemoryDB V)
  | [] => some db
  | op :: ops =>
    match step db op with
    | none => none
    | some db1 => run db1 ops

/-- The operation is one of the four calls `Set`, `Get`, `Del`, `Expire`. -/
def Op.isCall {V : Type} : Op V → Bool
  | Op.set _ _ _ _ => true
  | Op.get _ _ => true
  | Op.del _ => true
  | Op.expire _ _ _ => true
  | Op.tick _ => false
  | Op.close => false

/-- The operation is neither a `Set`, `Del` or `Expire` on key `k` nor a
`Close`. -/
def Op.leaves {V : Type} (k : String) : Op V → Bool
  | Op.set key _ _ _ => decide (key ≠ k)
  | Op.get _ _ => true
  | Op.del key => decide (key ≠ k)
  | Op.expire key _ _ => decide (key ≠ k)
  | Op.tick _ => true
  | Op.close => false

/-- The operation is a `Set` on key `k`. -/
def Op.isSetOn {V : Type} (k : String) : Op V → Bool
  | Op.set key _ _ _ => decide (key = k)
  | _ => false

/-- The clock readings against which the operation compares the
expiration of the entry of key `k`: the reading of a `Get` on `k`, and the
reading a sweep tick takes when it visits `k`. -/
def Op.readings {V : Type} (k : String) : Op V → List Int
  | Op.get key now => if key = k then [now] else []
  | Op.tick clock => [clock k]
  | _ => []

/-! ## The generic accessors

The payload type of the store is `interface{}`.  A value of that type is
`nil`, or a concrete (dynamic) type together with a value of it.  The type
argument of `Set[T]` and `Get[T]` is any Go type: a concrete type, or an
interface type, which is characterised here by the concrete types that
implement it.  `C` is the collection of concrete types, `val c` the values
of the concrete type `c`, and `zero c` its zero value. -/

/-- A value of type `interface{}`: `none` is `nil`, `some ⟨c, x⟩` holds the
value `x` of dynamic type `c`. -/
abbrev Iface (C : Type) (val : C → Type) : Type := Option (Sigma val)

/-- A type argument for the type parameter `T any`. -/
inductive TypeArg (C : Type) where
  | concrete (c : C)
  | iface (implementedBy : C → Bool)

/-- The values of static type `T`: the values of a concrete type; for an
interface type, `nil` or a value of a concrete type that implements it. -/
def TypeArg.Val {C : Type} (val : C → Type) : TypeArg C → Type
  | TypeArg.concrete c => val c
  | TypeArg.iface implementedBy => Option { x : Sigma val // implementedBy x.1 = true }

/-- The zero value of `T` (`var zeroValue T`): the zero value of a concrete
type, `nil` for an interface type. -/
def TypeArg.zeroValue {C : Type} {val : C → Type} (zero : (c : C) → val c) :
    (T : TypeArg C) → T.Val val
  | TypeArg.concrete c => zero c
  | TypeArg.iface _ => none

/-- The conversion of a value of static type `T` to `interface{}` that Go
performs when `Set[T]` passes `value` to `db.Set`. -/
def toIface {C : Type} {val : C → Type} : (T : TypeArg C) → T.Val val → Iface C val
  | TypeArg.concrete c, x => some ⟨c, x⟩
  | TypeArg.iface _, none => none
  | TypeArg.iface _, some x => some x.1

/-- The type assertion `result, ok := value.(T)`; `none` stands for
`ok == false`.  The assertion fails on `nil`; for a concrete `T` it holds
when the dynamic type is `T`, for an interface `T` when the dynamic type
implements `T`. -/
def typeAssert {C : Type} [DecidableEq C] {val : C → Type} :
    (T : TypeArg C) → Iface C val → Option (T.Val val)
  | TypeArg.concrete _, none => none
  | TypeArg.concrete c, some x => if h : x.1 = c then some (h ▸ x.2) else none
  | TypeArg.iface _, none => none
  | TypeArg.iface implementedBy, some x =>
    if h : implementedBy x.1 = true then some (some ⟨x, h⟩) else none

/-- The dynamic type of an `interface{}` value; `nil` has none. -/
def dynamicType {C : Type} {val : C → Type} (p : Iface C val) : Option C :=
  p.map Sigma.fst

/-- The generic function `Set[T]`. -/
def Set {C : Type} {val : C → Type} (T : TypeArg C) (db : MemoryDB (Iface C val))
    (key : String) (value : T.Val val) (ttl : Int) (now : Int) :
    Option Error × MemoryDB (Iface C val) :=
  db.Set key (toIface T value) ttl now

/-- The generic function `Get[T]`; it returns the pair `(T, error)` and the
store after the call. -/
def Get {C : Type} [DecidableEq C] {val : C → Type} (zero : (c : C) → val c)
    (T : TypeArg C) (db : MemoryDB (Iface C val)) (key : String) (now : Int) :
    (T.Val val × Option Error) × MemoryDB (Iface C val) :=
  let zeroValue := T.zeroValue zero
  match db.Get key now with
  | (Except.error err, db1) => ((zeroValue, some err), db1)
  | (Except.ok value, db1) =>
    match typeAssert T value with
    | none => ((zeroValue, some Error.ErrTypeAssertionFail), db1)
    | some result => ((result, none), db1)

/-- Two concrete Go types, to run the generic functions on. -/
inductive GoType where
  | int
  | string
deriving DecidableEq

/-- The values of the two concrete types. -/
def GoType.val : GoType → Type
  | GoType.int => Int
  | GoType.string => String

/-- The zero values `0` and `""`. -/
def GoType.zero : (c : GoType) → c.val
  | GoType.int => (0 : Int)
  | GoType.string => ""

/-- The interface type `any`, implemented by every concrete type. -/
def anyType : TypeArg GoType := TypeArg.iface (fun _ => true)

/-! ## Locking

What each method does to the mutex and to the map, in program order. -/

/-- The events of interest: the four mutex calls, and a write to `db.data`
(an assignment `db.data[key] = ...`, a `delete(db.data, key)`, or the
replacement of the map). -/
inductive LockEvent where
  | Lock
  | Unlock
  | RLock
  | RUnlock
  | write
deriving DecidableEq

/-- How the mutex is held. -/
inductive LockMode where
  | free
  | shared
  | exclusive
deriving DecidableEq

/-- The events of `(*MemoryDB).Set`: `Lock`, the assignment unless the store
is closed, the deferred `Unlock`. -/
def MemoryDB.SetEvents {V : Type} (db : MemoryDB V) : List LockEvent :=
  [LockEvent.Lock] ++ (if db.closed then [] else [LockEvent.write]) ++ [LockEvent.Unlock]

/-- The events of `(*MemoryDB).Get`: `RLock`, the `delete` on the expired
path, the deferred `RUnlock`. -/
def MemoryDB.GetEvents {V : Type} (db : MemoryDB V) (key : String) (now : Int) :
    List LockEvent :=
  [LockEvent.RLock] ++
    (if db.closed then []
     else
      match db.data.lookup key with
      | none => []
      | some it => if it.expiredAt now then [LockEvent.write] else []) ++
    [LockEvent.RUnlock]

/-- The events of `(*MemoryDB).Del`: `Lock`, the `delete` unless the store is
closed, the deferred `Unlock`. -/
def MemoryDB.DelEvents {V : Type} (db : MemoryDB V) : List LockEvent :=
  [LockEvent.Lock] ++ (if db.closed then [] else [LockEvent.write]) ++ [LockEvent.Unlock]

/-- The events of `(*MemoryDB).Expire`: `Lock`, the assignment when the key
is found in an open store, the deferred `Unlock`. -/
def MemoryDB.ExpireEvents {V : Type} (db : MemoryDB V) (key : String) : List LockEvent :=
  [LockEvent.Lock] ++
    (if db.closed then []
     else
      match db.data.lookup key with
      | none => []
      | some _ => [LockEvent.write]) ++
    [LockEvent.Unlock]

/-- The events of one tick of `cleanupExpiredKeys`: `Lock`, one `delete` for
each expired entry, `Unlock`. -/
def MemoryDB.cleanupTickEvents {V : Type} (db : MemoryDB V) (clock : String → Int) :
    List LockEvent :=
  [LockEvent.Lock] ++
    List.replicate
      (Multiset.countP (fun e => item.expiredAt e.2 (clock e.1) = true) db.data.entries)
      LockEvent.write ++
    [LockEvent.Unlock]

/-- The events of `(*MemoryDB).Close`: `Lock`, then, unless closing the stop
channel panics, `Unlock`, `Lock`, the replacement of the map, `Unlock`. -/
def MemoryDB.CloseEvents {V : Type} (db : MemoryDB V) : List LockEvent :=
  [LockEvent.Lock] ++
    (if db.stopCh then []
     else [LockEvent.Unlock, LockEvent.Lock, LockEvent.write, LockEvent.Unlock])

/-- Every write to the map in the event sequence happens while the mutex is
held exclusively; `mode` is how the mutex is held at the start. -/
def exclusiveWrites : LockMode → List LockEvent → Bool
  | _, [] => true
  | _, LockEvent.Lock :: es => exclusiveWrites LockMode.exclusive es
  | _, LockEvent.Unlock :: es => exclusiveWrites LockMode.free es
  | _, LockEvent.RLock :: es => exclusiveWrites LockMode.shared es
  | _, LockEvent.RUnlock :: es => exclusiveWrites LockMode.free es
  | mode, LockEvent.write :: es => decide (mode = LockMode.exclusive) && exclusiveWrites mode es

/-! ## Lemmas on the sweep -/

/-- Lookup in the map after the range loop has visited the entries `l`. -/
theorem lookup_foldl_sweepEntry {V : Type} (clock : String → Int) (k : String)
    (l : List (Sigma (fun _ : String => item V))) (m : Finmap (fun _ : String => item V)) :
    (l.foldl (fun d s => sweepEntry clock d s.1 s.2) m).lookup k
      = if (∃ s ∈ l, s.1 = k ∧ item.expiredAt s.2 (clock k) = true) then none
        else m.lookup k := by
  induction l generalizing m with
  | nil => simp
  | cons s t ih =>
    rw [List.foldl_cons, ih]
    by_cases ht : ∃ s1 ∈ t, s1.1 = k ∧ item.expiredAt s1.2 (clock k) = true
    · have : ∃ s1 ∈ s :: t, s1.1 = k ∧ item.expiredAt s1.2 (clock k) = true := by
        obtain ⟨s1, h1, h2⟩ := ht
        exact ⟨s1, List.mem_cons_of_mem _ h1, h2⟩
      rw [if_pos ht, if_pos this]
    · rw [if_neg ht]
      by_cases hs : s.1 = k ∧ item.expiredAt s.2 (clock k) = true
      · have : ∃ s1 ∈ s :: t, s1.1 = k ∧ item.expiredAt s1.2 (clock k) = true :=
          ⟨s, List.mem_cons_self _ _, hs⟩
        rw [if_pos this]
        obtain ⟨hk, he⟩ := hs
        subst hk
        simp [sweepEntry, he, Finmap.lookup_erase]
      · have : ¬ ∃ s1 ∈ s :: t, s1.1 = k ∧ item.expiredAt s1.2 (clock k) = true := by
          rintro ⟨s1, h1, h2⟩
          rcases List.mem_cons.mp h1 with h | h
          · exact hs (h ▸ h2)
          · exact ht ⟨s1, h, h2⟩
        rw [if_neg this]
        unfold sweepEntry
        by_cases he : item.expiredAt s.2 (clock s.1) = true
        · rw [if_pos he]
          have hne : k ≠ s.1 := by
            intro hk
            apply hs
            exact ⟨hk.symm, hk ▸ he⟩
          exact Finmap.lookup_erase_ne hne
        · rw [if_neg he]

/-- After one tick, a key is bound exactly when it was bound before to an
entry that is not expired at the clock reading taken for it; the entry is
the same. -/
theorem lookup_cleanupTick {V : Type} (db : MemoryDB V) (clock : String → Int) (k : String) :
    (db.cleanupTick clock).data.lookup k
      = (db.data.lookup k).filter (fun it => !it.expiredAt (clock k)) := by
  unfold MemoryDB.cleanupTick
  simp only
  generalize db.data = m
  induction m using Finmap.induction_on with
  | H al =>
    unfold Finmap.foldl
    simp only [AList.toFinmap_entries, Multiset.coe_foldl]
    rw [lookup_foldl_sweepEntry]
    cases hl : (AList.toFinmap al).lookup k with
    | none =>
      have hk : k ∉ al.entries.keys := by
        rw [Finmap.lookup_toFinmap] at hl
        exact List.dlookup_eq_none.mp hl
      have : ¬ ∃ s ∈ al.entries, s.1 = k ∧ item.expiredAt s.2 (clock k) = true := by
        rintro ⟨s, h1, h2, -⟩
        apply hk
        rw [← h2]
        exact List.mem_keys_of_mem h1
      rw [if_neg this]
      rfl
    | some it =>
      have hmem : (⟨k, it⟩ : Sigma (fun _ : String => item V)) ∈ al.entries := by
        rw [Finmap.lookup_toFinmap] at hl
        exact (List.mem_dlookup_iff al.nodupKeys).mp hl
      by_cases he : it.expiredAt (clock k) = true
      · have : ∃ s ∈ al.entries, s.1 = k ∧ item.expiredAt s.2 (clock k) = true :=
          ⟨⟨k, it⟩, hmem, rfl, he⟩
        rw [if_pos this]
        simp [Option.filter, he]
      · have : ¬ ∃ s ∈ al.entries, s.1 = k ∧ item.expiredAt s.2 (clock k) = true := by
          rintro ⟨⟨k1, it1⟩, h1, h2, h3⟩
          simp only at h2
          subst h2
          have := al.nodupKeys.eq_of_mk_mem h1 hmem
          subst this
          exact he h3
        rw [if_neg this]
        simp [Option.filter, he]


/-! ## Lemmas on single operations -/

/-- On a closed store each of the four calls fails with `ErrDBClosed` and
returns the store as it was. -/
theorem step_closed {V : Type} (db : MemoryDB V) (hc : db.closed = true) (op : Op V)
    (hop : op.isCall = true) : step db op = some db := by
  cases op <;>
    simp_all [step, Op.isCall, MemoryDB.Set, MemoryDB.Get, MemoryDB.Del, MemoryDB.Expire]

/-- A sequence of calls on a closed store leaves it as it was. -/
theorem run_closed {V : Type} (ops : List (Op V)) (db : MemoryDB V) (hc : db.closed = true)
    (hops : ∀ op ∈ ops, op.isCall = true) : run db ops = some db := by
  induction ops with
  | nil => rfl
  | cons op ops ih =>
    have h1 : step db op = some db := step_closed db hc op (hops op (List.mem_cons_self _ _))
    simp only [run, h1]
    exact ih (fun o ho => hops o (List.mem_cons_of_mem _ ho))

/-- An operation that leaves key `k` alone, and whose clock readings for
`k` do not find the entry `it` expired, keeps the store open and keeps `k`
bound to `it`. -/
theorem step_keeps_entry {V : Type} (k : String) (it : item V) (db : MemoryDB V)
    (hc : db.closed = false) (hl : db.data.lookup k = some it) (op : Op V)
    (hleave : op.leaves k = true) (hread : ∀ r ∈ op.readings k, it.expiredAt r = false) :
    ∃ db1, step db op = some db1 ∧ db1.closed = false ∧ db1.data.lookup k = some it := by
  cases op with
  | set key value ttl now =>
    have hne : k ≠ key := by
      intro h; simp [Op.leaves, h] at hleave
    refine ⟨_, rfl, ?_, ?_⟩
    · simp [MemoryDB.Set, hc]
    · simp [MemoryDB.Set, hc, Finmap.lookup_insert_of_ne _ hne, hl]
  | get key now =>
    refine ⟨_, rfl, ?_, ?_⟩
    · simp only [MemoryDB.Get, hc]
      cases db.data.lookup key with
      | none => simp [hc]
      | some it1 => by_cases he : it1.expiredAt now = true <;> simp [he, hc]
    · by_cases hk : key = k
      · subst hk
        have he : it.expiredAt now = false := hread now (by simp [Op.readings])
        simp [MemoryDB.Get, hc, hl, he]
      · simp only [MemoryDB.Get, hc]
        cases db.data.lookup key with
        | none => simp [hl]
        | some it1 =>
          by_cases he : it1.expiredAt now = true
          · simp [he, Finmap.lookup_erase_ne (Ne.symm hk), hl]
          · simp [he, hl]
  | del key =>
    have hne : k ≠ key := by
      intro h; simp [Op.leaves, h] at hleave
    refine ⟨_, rfl, ?_, ?_⟩
    · simp [MemoryDB.Del, hc]
    · simp [MemoryDB.Del, hc, Finmap.lookup_erase_ne hne, hl]
  | expire key ttl now =>
    have hne : k ≠ key := by
      intro h; simp [Op.leaves, h] at hleave
    refine ⟨_, rfl, ?_, ?_⟩
    · simp only [MemoryDB.Expire, hc]
      cases db.data.lookup key with
      | none => simp [hc]
      | some it1 => simp [hc]
    · simp only [MemoryDB.Expire, hc]
      cases db.data.lookup key with
      | none => simp [hl]
      | some it1 => simp [Finmap.lookup_insert_of_ne _ hne, hl]
  | tick clock =>
    have he : it.expiredAt (clock k) = false := hread (clock k) (by simp [Op.readings])
    refine ⟨_, rfl, ?_, ?_⟩
    · simp [MemoryDB.cleanupTick, hc]
    · rw [lookup_cleanupTick, hl]
      simp [Option.filter, he]
  | close => simp [Op.leaves] at hleave

/-- A sequence of operations that leave key `k` alone, none of whose
clock readings for `k` finds the entry `it` expired, runs to the end
without a panic, keeps the store open and keeps `k` bound to `it`. -/
theorem run_keeps_entry {V : Type} (k : String) (it : item V) (ops : List (Op V))
    (db : MemoryDB V) (hc : db.closed = false) (hl : db.data.lookup k = some it)
    (hleave : ∀ op ∈ ops, op.leaves k = true)
    (hread : ∀ op ∈ ops, ∀ r ∈ op.readings k, it.expiredAt r = false) :
    ∃ db1, run db ops = some db1 ∧ db1.closed = false ∧ db1.data.lookup k = some it := by
  induction ops generalizing db with
  | nil => exact ⟨db, rfl, hc, hl⟩
  | cons op ops ih =>
    obtain ⟨db1, h1, hc1, hl1⟩ := step_keeps_entry k it db hc hl op
      (hleave op (List.mem_cons_self _ _)) (hread op (List.mem_cons_self _ _))
    obtain ⟨db2, h2, hc2, hl2⟩ := ih db1 hc1 hl1
      (fun o ho => hleave o (List.mem_cons_of_mem _ ho))
      (fun o ho => hread o (List.mem_cons_of_mem _ ho))
    exact ⟨db2, by simp only [run, h1, h2], hc2, hl2⟩

/-- The sum `now + ttl*int64(time.Second)` computed in `int64` is the
mathematical sum whenever that sum is representable, whether or not the
product alone is. -/
theorem addInt64_mulInt64_exact (now ttl : Int)
    (hfit : inInt64 (now + ttl * 1000000000)) :
    addInt64 now (mulInt64 ttl Second) = now + ttl * 1000000000 := by
  unfold inInt64 minInt64 maxInt64 at hfit
  unfold addInt64 mulInt64 wrapInt64 Second
  omega

/-- An operation other than a `Set` on `k` does not bind `k`: if `k` is
unbound before, it is unbound after. -/
theorem step_keeps_unbound {V : Type} (k : String) (db : MemoryDB V)
    (hl : db.data.lookup k = none) (op : Op V) (hop : op.isSetOn k = false)
    (db1 : MemoryDB V) (hstep : step db op = some db1) : db1.data.lookup k = none := by
  cases op with
  | set key value ttl now =>
    have hne : k ≠ key := by
      intro h; simp [Op.isSetOn, h] at hop
    simp only [step, Option.some.injEq] at hstep
    subst hstep
    by_cases hc : db.closed = true
    · simp [MemoryDB.Set, hc, hl]
    · simp [MemoryDB.Set, hc, Finmap.lookup_insert_of_ne _ hne, hl]
  | get key now =>
    simp only [step, Option.some.injEq] at hstep
    subst hstep
    simp only [MemoryDB.Get]
    by_cases hc : db.closed = true
    · simp [hc, hl]
    · simp only [hc]
      cases hk : db.data.lookup key with
      | none => simp [hl]
      | some it1 =>
        by_cases he : it1.expiredAt now = true
        · by_cases hkk : k = key
          · subst hkk; simp [he, Finmap.lookup_erase]
          · simp [he, Finmap.lookup_erase_ne hkk, hl]
        · simp [he, hl]
  | del key =>
    simp only [step, Option.some.injEq] at hstep
    subst hstep
    by_cases hc : db.closed = true
    · simp [MemoryDB.Del, hc, hl]
    · by_cases hkk : k = key
      · subst hkk; simp [MemoryDB.Del, hc, Finmap.lookup_erase]
      · simp [MemoryDB.Del, hc, Finmap.lookup_erase_ne hkk, hl]
  | expire key ttl now =>
    simp only [step, Option.some.injEq] at hstep
    subst hstep
    simp only [MemoryDB.Expire]
    by_cases hc : db.closed = true
    · simp [hc, hl]
    · simp only [hc]
      cases hk : db.data.lookup key with
      | none => simp [hl]
      | some it1 =>
        have hkk : k ≠ key := by
          intro h; subst h; rw [hl] at hk; cases hk
        simp [Finmap.lookup_insert_of_ne _ hkk, hl]
  | tick clock =>
    simp only [step, Option.some.injEq] at hstep
    subst hstep
    rw [lookup_cleanupTick, hl]
    rfl
  | close =>
    simp only [step, MemoryDB.Close] at hstep
    by_cases hs : db.stopCh = true
    · simp [hs] at hstep
    · simp only [hs] at hstep
      simp only [Bool.false_eq_true, if_false, Option.some.injEq] at hstep
      subst hstep
      exact Finmap.lookup_empty k

/-- A sequence of operations without a `Set` on `k` does not bind `k`. -/
theorem run_keeps_unbound {V : Type} (k : String) (ops : List (Op V)) (db : MemoryDB V)
    (hl : db.data.lookup k = none) (hops : ∀ op ∈ ops, op.isSetOn k = false)
    (db1 : MemoryDB V) (hrun : run db ops = some db1) : db1.data.lookup k = none := by
  induction ops generalizing db with
  | nil =>
    simp only [run, Option.some.injEq] at hrun
    subst hrun
    exact hl
  | cons op ops ih =>
    simp only [run] at hrun
    cases hs : step db op with
    | none => simp [hs] at hrun
    | some db2 =>
      simp only [hs] at hrun
      exact ih db2 (step_keeps_unbound k db hl op (hops op (List.mem_cons_self _ _)) db2 hs)
        (fun o ho => hops o (List.mem_cons_of_mem _ ho)) hrun

/-- No operation opens or closes the stop channel without setting the
`closed` flag alike: a step keeps `stopCh = closed`. -/
theorem step_stopCh_eq_closed {V : Type} (db : MemoryDB V) (h : db.stopCh = db.closed)
    (op : Op V) (db1 : MemoryDB V) (hstep : step db op = some db1) :
    db1.stopCh = db1.closed := by
  cases op with
  | set key value ttl now =>
    simp only [step, Option.some.injEq] at hstep
    subst hstep
    by_cases hc : db.closed = true <;> simp_all [MemoryDB.Set]
  | get key now =>
    simp only [step, Option.some.injEq] at hstep
    subst hstep
    simp only [MemoryDB.Get]
    by_cases hc : db.closed = true
    · simp [hc, h]
    · simp only [hc]
      cases db.data.lookup key with
      | none => simp [h]
      | some it1 => by_cases he : it1.expiredAt now = true <;> simp_all
  | del key =>
    simp only [step, Option.some.injEq] at hstep
    subst hstep
    by_cases hc : db.closed = true <;> simp_all [MemoryDB.Del]
  | expire key ttl now =>
    simp only [step, Option.some.injEq] at hstep
    subst hstep
    simp only [MemoryDB.Expire]
    by_cases hc : db.closed = true
    · simp [hc, h]
    · simp only [hc]
      cases db.data.lookup key with
      | none => simp [h]
      | some it1 => simp_all
  | tick clock =>
    simp only [step, Option.some.injEq] at hstep
    subst hstep
    simpa [MemoryDB.cleanupTick] using h
  | close =>
    simp only [step, MemoryDB.Close] at hstep
    by_cases hs : db.stopCh = true
    · simp [hs] at hstep
    · simp only [hs] at hstep
      simp only [Bool.false_eq_true, if_false, Option.some.injEq] at hstep
      subst hstep
      rfl

/-- In every store reached from a new store the stop channel is closed
exactly when the `closed` flag is set. -/
theorem run_stopCh_eq_closed {V : Type} (ops : List (Op V)) (db : MemoryDB V)
    (h : db.stopCh = db.closed) (db1 : MemoryDB V) (hrun : run db ops = some db1) :
    db1.stopCh = db1.closed := by
  induction ops generalizing db with
  | nil =>
    simp only [run, Option.some.injEq] at hrun
    subst hrun
    exact h
  | cons op ops ih =>
    simp only [run] at hrun
    cases hs : step db op with
    | none => simp [hs] at hrun
    | some db2 =>
      simp only [hs] at hrun
      exact ih db2 (step_stopCh_eq_closed db h op db2 hs) hrun

/-- A sweep tick on an empty map leaves it empty. -/
theorem cleanupTick_empty {V : Type} (db : MemoryDB V) (h : db.data = ∅)
    (clock : String → Int) : (db.cleanupTick clock).data = ∅ := by
  apply Finmap.ext_lookup
  intro x
  rw [lookup_cleanupTick, h, Finmap.lookup_empty]
  rfl

/-- On a store that is closed with an empty map, every operation that does
not panic leaves the store closed with an empty map. -/
theorem step_closed_empty {V : Type} (db : MemoryDB V) (hc : db.closed = true)
    (he : db.data = ∅) (op : Op V) (db1 : MemoryDB V) (hstep : step db op = some db1) :
    db1.closed = true ∧ db1.data = ∅ := by
  cases op with
  | set key value ttl now =>
    rw [step_closed db hc (Op.set key value ttl now) rfl, Option.some.injEq] at hstep
    subst hstep; exact ⟨hc, he⟩
  | get key now =>
    rw [step_closed db hc (Op.get key now) rfl, Option.some.injEq] at hstep
    subst hstep; exact ⟨hc, he⟩
  | del key =>
    rw [step_closed db hc (Op.del key) rfl, Option.some.injEq] at hstep
    subst hstep; exact ⟨hc, he⟩
  | expire key ttl now =>
    rw [step_closed db hc (Op.expire key ttl now) rfl, Option.some.injEq] at hstep
    subst hstep; exact ⟨hc, he⟩
  | tick clock =>
    simp only [step, Option.some.injEq] at hstep
    subst hstep
    exact ⟨hc, cleanupTick_empty db he clock⟩
  | close =>
    simp only [step, MemoryDB.Close] at hstep
    by_cases hs : db.stopCh = true
    · simp [hs] at hstep
    · simp only [hs] at hstep
      simp only [Bool.false_eq_true, if_false, Option.some.injEq] at hstep
      subst hstep
      exact ⟨rfl, rfl⟩

/-- An operation that does not panic keeps the property that a closed
store has an empty map. -/
theorem step_closed_imp_empty {V : Type} (db : MemoryDB V)
    (h : db.closed = true → db.data = ∅) (op : Op V) (db1 : MemoryDB V)
    (hstep : step db op = some db1) : db1.closed = true → db1.data = ∅ := by
  by_cases hc : db.closed = true
  · intro _
    exact (step_closed_empty db hc (h hc) op db1 hstep).2
  · cases op with
    | set key value ttl now =>
      simp only [step, Option.some.injEq] at hstep
      subst hstep
      simp [MemoryDB.Set, hc]
    | get key now =>
      simp only [step, Option.some.injEq] at hstep
      subst hstep
      simp only [MemoryDB.Get, hc]
      cases db.data.lookup key with
      | none => simp [hc]
      | some it1 => by_cases he : it1.expiredAt now = true <;> simp [he, hc]
    | del key =>
      simp only [step, Option.some.injEq] at hstep
      subst hstep
      simp [MemoryDB.Del, hc]
    | expire key ttl now =>
      simp only [step, Option.some.injEq] at hstep
      subst hstep
      simp only [MemoryDB.Expire, hc]
      cases db.data.lookup key with
      | none => simp [hc]
      | some it1 => simp [hc]
    | tick clock =>
      simp only [step, Option.some.injEq] at hstep
      subst hstep
      intro hc1
      exact absurd hc1 hc
    | close =>
      simp only [step, MemoryDB.Close] at hstep
      by_cases hs : db.stopCh = true
      · simp [hs] at hstep
      · simp only [hs] at hstep
        simp only [Bool.false_eq_true, if_false, Option.some.injEq] at hstep
        subst hstep
        intro _
        rfl

/-- Along a sequence of operations that runs without a panic, the property
that a closed store has an empty map is kept. -/
theorem run_closed_imp_empty {V : Type} (ops : List (Op V)) (db : MemoryDB V)
    (h : db.closed = true → db.data = ∅) (db1 : MemoryDB V) (hrun : run db ops = some db1) :
    db1.closed = true → db1.data = ∅ := by
  induction ops generalizing db with
  | nil =>
    simp only [run, Option.some.injEq] at hrun
    subst hrun
    exact h
  | cons op ops ih =>
    simp only [run] at hrun
    cases hs : step db op with
    | none => simp [hs] at hrun
    | some db2 =>
      simp only [hs] at hrun
      exact ih db2 (step_closed_imp_empty db h op db2 hs) hrun

/-! ## Close -/

/-- C1: on an open store (closed flag false and stop channel open, which
go together in every store reached from a new one) `Close` returns, and
leaves the store closed with an empty map; after that every `Set`, `Get`, `Del` and `Expire`, for any key, value, ttl and clock
reading, returns `ErrDBClosed` and the store unchanged, and so does any
sequence of such calls. -/
theorem close_then_every_call_ErrDBClosed {V : Type} (db : MemoryDB V)
    (_hopen : db.closed = false) (hch : db.stopCh = false) :
    ∃ db1, db.Close = CloseResult.returned db1 ∧ db1.closed = true ∧ db1.data = ∅ ∧
      (∀ key value ttl now, db1.Set key value ttl now = (some Error.ErrDBClosed, db1)) ∧
      (∀ key now, db1.Get key now = (Except.error Error.ErrDBClosed, db1)) ∧
      (∀ key, db1.Del key = (some Error.ErrDBClosed, db1)) ∧
      (∀ key ttl now, db1.Expire key ttl now = (some Error.ErrDBClosed, db1)) ∧
      (∀ ops : List (Op V), (∀ op ∈ ops, op.isCall = true) → run db1 ops = some db1) := by
  refine ⟨{ data := ∅, closed := true, stopCh := true }, ?_, rfl, rfl, ?_, ?_, ?_, ?_, ?_⟩
  · simp [MemoryDB.Close, hch]
  · intro key value ttl now; simp [MemoryDB.Set]
  · intro key now; simp [MemoryDB.Get]
  · intro key; simp [MemoryDB.Del]
  · intro key ttl now; simp [MemoryDB.Expire]
  · intro ops hops; exact run_closed ops _ rfl hops

/-- Witness for C1: the store holding `"a"` closes, and the four calls
then fail. -/
theorem close_then_every_call_ErrDBClosed_witness :
    ((NewMemoryDB String).Set "a" "x" 0 5).2.closed = false ∧
    ((NewMemoryDB String).Set "a" "x" 0 5).2.stopCh = false ∧
    ∃ db1, ((NewMemoryDB String).Set "a" "x" 0 5).2.Close = CloseResult.returned db1 ∧
      db1.closed = true ∧ db1.data = ∅ ∧
      (∀ key value ttl now, db1.Set key value ttl now = (some Error.ErrDBClosed, db1)) ∧
      (∀ key now, db1.Get key now = (Except.error Error.ErrDBClosed, db1)) ∧
      (∀ key, db1.Del key = (some Error.ErrDBClosed, db1)) ∧
      (∀ key ttl now, db1.Expire key ttl now = (some Error.ErrDBClosed, db1)) ∧
      (∀ ops : List (Op String), (∀ op ∈ ops, op.isCall = true) → run db1 ops = some db1) :=
  ⟨rfl, rfl, close_then_every_call_ErrDBClosed _ rfl rfl⟩

/-! ## Set followed by Get -/

/-- C2: on an open store, after `Set(k, v, ttl)` with `ttl ≤ 0` (which
succeeds), and after any sequence of operations that contains no `Set`,
`Del` or `Expire` on `k` and no `Close` (so: `Get` of any key, the other
calls on other keys, sweep ticks with any clock readings), the sequence
runs to its end and `Get(k)` at any clock reading returns `v` with no
error and leaves the store as it is. -/
theorem set_permanent_then_get {V : Type} (db : MemoryDB V) (hopen : db.closed = false)
    (k : String) (v : V) (ttl : Int) (httl : ttl ≤ 0) (now : Int)
    (ops : List (Op V)) (hops : ∀ op ∈ ops, op.leaves k = true) (later : Int) :
    (db.Set k v ttl now).1 = none ∧
    ∃ db1, run (db.Set k v ttl now).2 ops = some db1 ∧
      db1.Get k later = (Except.ok v, db1) := by
  have hexp : expirationFor ttl now = 0 := by
    unfold expirationFor
    rw [if_neg (by omega)]
  have hnever : ∀ r : Int, item.expiredAt ({ value := v, expiration := 0 } : item V) r = false := by
    intro r; simp [item.expiredAt]
  have hset : (db.Set k v ttl now).2.closed = false ∧
      (db.Set k v ttl now).2.data.lookup k = some { value := v, expiration := 0 } := by
    simp [MemoryDB.Set, hopen, hexp]
  obtain ⟨db1, hrun, hc1, hl1⟩ := run_keeps_entry k { value := v, expiration := 0 } ops
    (db.Set k v ttl now).2 hset.1 hset.2 hops (fun _ _ r _ => hnever r)
  refine ⟨by simp [MemoryDB.Set, hopen], db1, hrun, ?_⟩
  simp [MemoryDB.Get, hc1, hl1, hnever]

/-- Witness for C2: `Set("a", "x", 0)`, then a `Get` and a `Set` on `"b"`, a
sweep tick and a `Get` on `"a"`; `Get("a")` still returns `"x"`. -/
theorem set_permanent_then_get_witness :
    (NewMemoryDB String).closed = false ∧ (0 : Int) ≤ 0 ∧
    (∀ op ∈ [Op.get "b" 7, Op.set "b" "y" 1 8, Op.tick (fun _ => 5000000000), Op.get "a" 9],
      Op.leaves "a" op = true) ∧
    ((NewMemoryDB String).Set "a" "x" 0 5).1 = none ∧
    ∃ db1, run ((NewMemoryDB String).Set "a" "x" 0 5).2
        [Op.get "b" 7, Op.set "b" "y" 1 8, Op.tick (fun _ => 5000000000), Op.get "a" 9]
        = some db1 ∧
      db1.Get "a" 6000000000 = (Except.ok "x", db1) :=
  ⟨rfl, le_refl 0, by decide,
    set_permanent_then_get (NewMemoryDB String) rfl "a" "x" 0 (le_refl 0) 5
      [Op.get "b" 7, Op.set "b" "y" 1 8, Op.tick (fun _ => 5000000000), Op.get "a" 9]
      (by decide) 6000000000⟩

/-- C3: on an open store, after `Set(k, v, ttl)` with `ttl > 0` at clock
reading `t`, where `t + ttl*10^9` is representable in `int64`, `Get(k)` at
any reading `t1` with `t ≤ t1 ≤ t + ttl*10^9` returns `v` with no error and
leaves the store as it is.  In between there may be any operations that
contain no `Set`, `Del` or `Expire` on `k` and no `Close`, and whose clock
readings for `k` are not later than `t + ttl*10^9`. -/
theorem set_ttl_then_get_within {V : Type} (db : MemoryDB V) (hopen : db.closed = false)
    (k : String) (v : V) (ttl : Int) (httl : ttl > 0) (t : Int)
    (hfit : inInt64 (t + ttl * 1000000000))
    (ops : List (Op V)) (hops : ∀ op ∈ ops, op.leaves k = true)
    (hread : ∀ op ∈ ops, ∀ r ∈ op.readings k, r ≤ t + ttl * 1000000000)
    (t1 : Int) (_h1 : t ≤ t1) (h2 : t1 ≤ t + ttl * 1000000000) :
    (db.Set k v ttl t).1 = none ∧
    ∃ db1, run (db.Set k v ttl t).2 ops = some db1 ∧
      db1.Get k t1 = (Except.ok v, db1) := by
  have hexp : expirationFor ttl t = t + ttl * 1000000000 := by
    unfold expirationFor
    rw [if_pos httl, addInt64_mulInt64_exact t ttl hfit]
  have hnot : ∀ r : Int, r ≤ t + ttl * 1000000000 →
      item.expiredAt ({ value := v, expiration := t + ttl * 1000000000 } : item V) r = false := by
    intro r hr
    simp only [item.expiredAt, Bool.and_eq_false_iff, decide_eq_false_iff_not]
    right; omega
  have hset : (db.Set k v ttl t).2.closed = false ∧
      (db.Set k v ttl t).2.data.lookup k
        = some { value := v, expiration := t + ttl * 1000000000 } := by
    simp [MemoryDB.Set, hopen, hexp]
  obtain ⟨db1, hrun, hc1, hl1⟩ := run_keeps_entry k
    { value := v, expiration := t + ttl * 1000000000 } ops
    (db.Set k v ttl t).2 hset.1 hset.2 hops (fun op hop r hr => hnot r (hread op hop r hr))
  refine ⟨by simp [MemoryDB.Set, hopen], db1, hrun, ?_⟩
  simp [MemoryDB.Get, hc1, hl1, hnot t1 h2]

/-- Witness for C3: `Set("key1", "value1", 10)` at reading `1000`, a `Set` on
another key and a sweep tick, then `Get("key1")` exactly at the bound. -/
theorem set_ttl_then_get_within_witness :
    (NewMemoryDB String).closed = false ∧ (10 : Int) > 0 ∧
    inInt64 (1000 + 10 * 1000000000) ∧
    (∀ op ∈ [Op.set "key2" "value2" 0 2000, Op.tick (fun _ => 3000)],
      Op.leaves "key1" op = true) ∧
    (∀ op ∈ [Op.set "key2" "value2" 0 2000, Op.tick (fun _ => 3000)],
      ∀ r ∈ Op.readings "key1" op, r ≤ 1000 + 10 * 1000000000) ∧
    (1000 : Int) ≤ 10000001000 ∧ (10000001000 : Int) ≤ 1000 + 10 * 1000000000 ∧
    ((NewMemoryDB String).Set "key1" "value1" 10 1000).1 = none ∧
    ∃ db1, run ((NewMemoryDB String).Set "key1" "value1" 10 1000).2
        [Op.set "key2" "value2" 0 2000, Op.tick (fun _ => 3000)] = some db1 ∧
      db1.Get "key1" 10000001000 = (Except.ok "value1", db1) :=
  ⟨rfl, by decide, by decide, by decide, by decide, by decide, by decide,
    set_ttl_then_get_within (NewMemoryDB String) rfl "key1" "value1" 10 (by decide) 1000
      (by decide) [Op.set "key2" "value2" 0 2000, Op.tick (fun _ => 3000)]
      (by decide) (by decide) 10000001000 (by decide) (by decide)⟩

/-! ## Get on an expired entry -/

/-- C4, as stated, fails: `Set("k", "v", 9000000000)` at clock reading
`1700000000000000000` wraps around and stores the expiration
`-7746744073709551616`, which is not the sentinel `0` and lies strictly
before the reading `1700000000000000001`; yet `Get("k")` at that reading
returns `"v"` with no error and removes nothing. -/
theorem get_negative_expiration_not_expired :
    ((NewMemoryDB String).Set "k" "v" 9000000000 1700000000000000000).2.closed = false ∧
    ((NewMemoryDB String).Set "k" "v" 9000000000 1700000000000000000).2.data.lookup "k"
      = some { value := "v", expiration := -7746744073709551616 } ∧
    (-7746744073709551616 : Int) ≠ 0 ∧
    (-7746744073709551616 : Int) < 1700000000000000001 ∧
    ((NewMemoryDB String).Set "k" "v" 9000000000 1700000000000000000).2.Get "k"
        1700000000000000001
      = (Except.ok "v",
          ((NewMemoryDB String).Set "k" "v" 9000000000 1700000000000000000).2) := by
  decide

/-- C4, amended: on an open store in which `k` is bound to an entry whose
expiration is positive and strictly earlier than the clock reading of the
call, `Get(k)` returns `ErrKeyExpired` and the store with exactly the
entry of `k` removed (every other key keeps its entry, the flags are
unchanged), and a following `Get(k)` at any reading returns
`ErrKeyNotFound` and leaves the store as it is. -/
theorem get_expired_lazy_delete {V : Type} (db : MemoryDB V) (hopen : db.closed = false)
    (k : String) (it : item V) (hl : db.data.lookup k = some it) (now : Int)
    (hpos : 0 < it.expiration) (hpast : it.expiration < now) :
    db.Get k now = (Except.error Error.ErrKeyExpired, { db with data := db.data.erase k }) ∧
    (db.Get k now).2.data.lookup k = none ∧
    (∀ k1, k1 ≠ k → (db.Get k now).2.data.lookup k1 = db.data.lookup k1) ∧
    (∀ later, (db.Get k now).2.Get k later
      = (Except.error Error.ErrKeyNotFound, (db.Get k now).2)) := by
  have he : it.expiredAt now = true := by
    simp [item.expiredAt, hpos, hpast]
  have hget : db.Get k now
      = (Except.error Error.ErrKeyExpired, { db with data := db.data.erase k }) := by
    simp [MemoryDB.Get, hopen, hl, he]
  rw [hget]
  refine ⟨rfl, Finmap.lookup_erase k db.data, ?_, ?_⟩
  · intro k1 hk1
    exact Finmap.lookup_erase_ne hk1
  · intro later
    simp [MemoryDB.Get, hopen, Finmap.lookup_erase]

/-- Witness for C4: `"b"` set with ttl 1 at reading `0` and read at
reading `2000000000`. -/
theorem get_expired_lazy_delete_witness :
    ((NewMemoryDB String).Set "b" "2" 1 0).2.closed = false ∧
    ((NewMemoryDB String).Set "b" "2" 1 0).2.data.lookup "b"
      = some { value := "2", expiration := 1000000000 } ∧
    (0 : Int) < 1000000000 ∧ (1000000000 : Int) < 2000000000 ∧
    (((NewMemoryDB String).Set "b" "2" 1 0).2.Get "b" 2000000000).1
      = Except.error Error.ErrKeyExpired ∧
    ∀ later, (((NewMemoryDB String).Set "b" "2" 1 0).2.Get "b" 2000000000).2.Get "b" later
      = (Except.error Error.ErrKeyNotFound,
          (((NewMemoryDB String).Set "b" "2" 1 0).2.Get "b" 2000000000).2) :=
  ⟨rfl, rfl, by decide, by decide,
    congrArg Prod.fst (get_expired_lazy_delete ((NewMemoryDB String).Set "b" "2" 1 0).2 rfl "b"
      { value := "2", expiration := 1000000000 } rfl 2000000000 (by decide) (by decide)).1,
    (get_expired_lazy_delete ((NewMemoryDB String).Set "b" "2" 1 0).2 rfl "b"
      { value := "2", expiration := 1000000000 } rfl 2000000000 (by decide) (by decide)).2.2.2⟩

/-! ## The expiration computed by Set and Expire -/

/-- C5, as stated, fails.  With `ttl = 16746744074 > 0` at clock reading
`1700000000000000000` the `int64` product and sum wrap around: `Set` stores
the expiration `290448384`, not `now + ttl*10^9`, and `Get` at the very
reading of the `Set` already reports the entry expired.  With `ttl = 1` at
the reading `-2000000000` nothing wraps, the stored expiration
`-1000000000` is `now + ttl*10^9`, and `Get` at the later reading `0` does
not treat the entry as expired. -/
theorem set_expiration_wraps :
    (16746744074 : Int) > 0 ∧ inInt64 16746744074 ∧ inInt64 1700000000000000000 ∧
    ((NewMemoryDB String).Set "k" "v" 16746744074 1700000000000000000).2.data.lookup "k"
      = some { value := "v", expiration := 290448384 } ∧
    (290448384 : Int) ≠ 1700000000000000000 + 16746744074 * 1000000000 ∧
    ¬ ((1700000000000000000 : Int) > 1700000000000000000 + 16746744074 * 1000000000) ∧
    (((NewMemoryDB String).Set "k" "v" 16746744074 1700000000000000000).2.Get "k"
        1700000000000000000).1 = Except.error Error.ErrKeyExpired ∧
    ((NewMemoryDB String).Set "k" "v" 1 (-2000000000)).2.data.lookup "k"
      = some { value := "v", expiration := -2000000000 + 1 * 1000000000 } ∧
    (0 : Int) > -2000000000 + 1 * 1000000000 ∧
    (((NewMemoryDB String).Set "k" "v" 1 (-2000000000)).2.Get "k" 0).1 = Except.ok "v" := by
  decide

/-- C5, amended: for every `ttl > 0` and clock reading `now` such that
`now + ttl*10^9` is positive and representable in `int64`, `Set(k, v, ttl)`
on an open store binds `k` to `v` with the expiration `now + ttl*10^9`;
`Get(k)` on the resulting store at reading `t1` returns `ErrKeyExpired`
exactly when `t1 > now + ttl*10^9`, and returns `v` otherwise; and
`Expire(k1, ttl)` at the same reading, on an open store holding `k1`,
stores that same expiration and keeps the value. -/
theorem set_expiration_absolute {V : Type} (db : MemoryDB V) (hopen : db.closed = false)
    (k : String) (v : V) (ttl : Int) (httl : ttl > 0) (now : Int)
    (hfit : inInt64 (now + ttl * 1000000000)) (hpos : 0 < now + ttl * 1000000000) :
    (db.Set k v ttl now).2.data.lookup k
      = some { value := v, expiration := now + ttl * 1000000000 } ∧
    (∀ t1, ((db.Set k v ttl now).2.Get k t1).1 = Except.error Error.ErrKeyExpired
      ↔ t1 > now + ttl * 1000000000) ∧
    (∀ t1, ¬ (t1 > now + ttl * 1000000000) →
      ((db.Set k v ttl now).2.Get k t1).1 = Except.ok v) ∧
    (∀ (db1 : MemoryDB V) (k1 : String) (it : item V), db1.closed = false →
      db1.data.lookup k1 = some it →
      (db1.Expire k1 ttl now).2.data.lookup k1
        = some { value := it.value, expiration := now + ttl * 1000000000 }) := by
  have hexp : expirationFor ttl now = now + ttl * 1000000000 := by
    unfold expirationFor
    rw [if_pos httl, addInt64_mulInt64_exact now ttl hfit]
  have hset : (db.Set k v ttl now).2.closed = false ∧
      (db.Set k v ttl now).2.data.lookup k
        = some { value := v, expiration := now + ttl * 1000000000 } := by
    simp [MemoryDB.Set, hopen, hexp]
  refine ⟨hset.2, ?_, ?_, ?_⟩
  · intro t1
    by_cases ht : t1 > now + ttl * 1000000000
    · have he : item.expiredAt
          ({ value := v, expiration := now + ttl * 1000000000 } : item V) t1 = true := by
        simp [item.expiredAt, hpos, ht]
      simp [MemoryDB.Get, hset.1, hset.2, he, ht]
    · have he : item.expiredAt
          ({ value := v, expiration := now + ttl * 1000000000 } : item V) t1 = false := by
        simp only [item.expiredAt, Bool.and_eq_false_iff, decide_eq_false_iff_not]
        right; exact ht
      simp [MemoryDB.Get, hset.1, hset.2, he, ht]
  · intro t1 ht
    have he : item.expiredAt
        ({ value := v, expiration := now + ttl * 1000000000 } : item V) t1 = false := by
      simp only [item.expiredAt, Bool.and_eq_false_iff, decide_eq_false_iff_not]
      right; exact ht
    simp [MemoryDB.Get, hset.1, hset.2, he]
  · intro db1 k1 it hc1 hl1
    simp [MemoryDB.Expire, hc1, hl1, hexp]

/-- Witness for C5: ttl 10 at the clock reading `1700000000000000000`. -/
theorem set_expiration_absolute_witness :
    (NewMemoryDB String).closed = false ∧ (10 : Int) > 0 ∧
    inInt64 (1700000000000000000 + 10 * 1000000000) ∧
    (0 : Int) < 1700000000000000000 + 10 * 1000000000 ∧
    ((NewMemoryDB String).Set "k" "v" 10 1700000000000000000).2.data.lookup "k"
      = some { value := "v", expiration := 1700000000000000000 + 10 * 1000000000 } :=
  ⟨rfl, by decide, by decide, by decide,
    (set_expiration_absolute (NewMemoryDB String) rfl "k" "v" 10 (by decide)
      1700000000000000000 (by decide) (by decide)).1⟩

/-! ## Keys that were never set -/

/-- C6: `Get(k)` on a newly constructed store returns `ErrKeyNotFound`; and
on every open store reached from a new store by a sequence of operations
that contains no `Set` on `k`, `Get(k)` at any clock reading returns
`ErrKeyNotFound` and leaves the store unchanged. -/
theorem get_never_set_ErrKeyNotFound {V : Type} (k : String) (now : Int) :
    (NewMemoryDB V).Get k now = (Except.error Error.ErrKeyNotFound, NewMemoryDB V) ∧
    ∀ (ops : List (Op V)) (db : MemoryDB V), (∀ op ∈ ops, op.isSetOn k = false) →
      run (NewMemoryDB V) ops = some db → db.closed = false →
      db.Get k now = (Except.error Error.ErrKeyNotFound, db) := by
  constructor
  · simp [MemoryDB.Get, NewMemoryDB]
  · intro ops db hops hrun hopen
    have hl : db.data.lookup k = none :=
      run_keeps_unbound k ops (NewMemoryDB V) (Finmap.lookup_empty k) hops db hrun
    simp [MemoryDB.Get, hopen, hl]

/-- Witness for C6: after a `Set` on `"a"`, an `Expire` and a `Del` on `"b"`
and a sweep tick, the store is open and `Get("b")` returns
`ErrKeyNotFound`. -/
theorem get_never_set_ErrKeyNotFound_witness :
    (∀ op ∈ [Op.set "a" "1" 0 5, Op.expire "b" 3 6, Op.del "b", Op.tick (fun _ => 7)],
      Op.isSetOn "b" op = false) ∧
    run (NewMemoryDB String)
        [Op.set "a" "1" 0 5, Op.expire "b" 3 6, Op.del "b", Op.tick (fun _ => 7)]
      = some ((NewMemoryDB String).Set "a" "1" 0 5).2 ∧
    ((NewMemoryDB String).Set "a" "1" 0 5).2.closed = false ∧
    ((NewMemoryDB String).Set "a" "1" 0 5).2.Get "b" 8
      = (Except.error Error.ErrKeyNotFound, ((NewMemoryDB String).Set "a" "1" 0 5).2) :=
  ⟨by decide, by decide, rfl,
    (get_never_set_ErrKeyNotFound "b" 8).2
      [Op.set "a" "1" 0 5, Op.expire "b" 3 6, Op.del "b", Op.tick (fun _ => 7)]
      ((NewMemoryDB String).Set "a" "1" 0 5).2 (by decide) (by decide) rfl⟩

/-! ## Del -/

/-- C7: on an open store, for any key `k`, whatever is stored under it,
`Del(k)` returns no error; afterwards `Get(k)` at any clock reading returns
`ErrKeyNotFound`; and every key other than `k` keeps its entry. -/
theorem del_then_get_ErrKeyNotFound {V : Type} (db : MemoryDB V) (hopen : db.closed = false)
    (k : String) :
    (db.Del k).1 = none ∧
    (∀ now, (db.Del k).2.Get k now = (Except.error Error.ErrKeyNotFound, (db.Del k).2)) ∧
    (∀ k1, k1 ≠ k → (db.Del k).2.data.lookup k1 = db.data.lookup k1) := by
  have hdel : db.Del k = (none, { db with data := db.data.erase k }) := by
    simp [MemoryDB.Del, hopen]
  rw [hdel]
  refine ⟨rfl, ?_, ?_⟩
  · intro now
    simp [MemoryDB.Get, hopen, Finmap.lookup_erase]
  · intro k1 hk1
    exact Finmap.lookup_erase_ne hk1

/-- Witness for C7: `Set("key1", "value1", 0)`, `Del("key1")`, `Get("key1")`. -/
theorem del_then_get_ErrKeyNotFound_witness :
    ((NewMemoryDB String).Set "key1" "value1" 0 5).2.closed = false ∧
    (((NewMemoryDB String).Set "key1" "value1" 0 5).2.Del "key1").1 = none ∧
    ∀ now, (((NewMemoryDB String).Set "key1" "value1" 0 5).2.Del "key1").2.Get "key1" now
      = (Except.error Error.ErrKeyNotFound,
          (((NewMemoryDB String).Set "key1" "value1" 0 5).2.Del "key1").2) :=
  ⟨rfl,
    (del_then_get_ErrKeyNotFound ((NewMemoryDB String).Set "key1" "value1" 0 5).2 rfl "key1").1,
    (del_then_get_ErrKeyNotFound
      ((NewMemoryDB String).Set "key1" "value1" 0 5).2 rfl "key1").2.1⟩

/-- C8: `Del` is idempotent.  On an open store, `Del(k)` where `k` is not
bound returns no error and the store unchanged; and for any `k` a second
`Del(k)` returns no error, as the first does, and the store that the first
one produced. -/
theorem del_idempotent {V : Type} (db : MemoryDB V) (hopen : db.closed = false) (k : String) :
    (db.data.lookup k = none → db.Del k = (none, db)) ∧
    (db.Del k).1 = none ∧
    (db.Del k).2.Del k = (none, (db.Del k).2) := by
  have herase : ∀ m : Finmap (fun _ : String => item V), m.lookup k = none → m.erase k = m := by
    intro m hm
    apply Finmap.ext_lookup
    intro x
    by_cases hx : x = k
    · subst hx; rw [Finmap.lookup_erase, hm]
    · exact Finmap.lookup_erase_ne hx
  have hdel : db.Del k = (none, { db with data := db.data.erase k }) := by
    simp [MemoryDB.Del, hopen]
  refine ⟨?_, ?_, ?_⟩
  · intro hl
    rw [hdel, herase db.data hl]
  · rw [hdel]
  · rw [hdel]
    simp [MemoryDB.Del, hopen, herase (db.data.erase k) (Finmap.lookup_erase k db.data)]

/-- Witness for C8: deleting `"a"` from the store holding `"a"` and `"b"`,
twice. -/
theorem del_idempotent_witness :
    (((NewMemoryDB String).Set "a" "1" 0 5).2.Set "b" "2" 9 6).2.closed = false ∧
    ((((NewMemoryDB String).Set "a" "1" 0 5).2.Set "b" "2" 9 6).2.Del "a").2.Del "a"
      = (none, ((((NewMemoryDB String).Set "a" "1" 0 5).2.Set "b" "2" 9 6).2.Del "a").2) :=
  ⟨rfl,
    (del_idempotent (((NewMemoryDB String).Set "a" "1" 0 5).2.Set "b" "2" 9 6).2 rfl "a").2.2⟩

/-! ## Expire -/

/-- C9: on an open store in which `k` is not bound, `Expire(k, ttl)`, for
any ttl and clock reading, returns `ErrKeyNotFound` and the store
unchanged; in particular `k` is still not bound. -/
theorem expire_absent_ErrKeyNotFound {V : Type} (db : MemoryDB V) (hopen : db.closed = false)
    (k : String) (hl : db.data.lookup k = none) (ttl now : Int) :
    db.Expire k ttl now = (some Error.ErrKeyNotFound, db) ∧
    (db.Expire k ttl now).2.data.lookup k = none := by
  have h : db.Expire k ttl now = (some Error.ErrKeyNotFound, db) := by
    simp [MemoryDB.Expire, hopen, hl]
  rw [h]
  exact ⟨rfl, hl⟩

/-- Witness for C9: `Expire("b", 3)` on a store that holds only `"a"`. -/
theorem expire_absent_ErrKeyNotFound_witness :
    ((NewMemoryDB String).Set "a" "1" 0 5).2.closed = false ∧
    ((NewMemoryDB String).Set "a" "1" 0 5).2.data.lookup "b" = none ∧
    ((NewMemoryDB String).Set "a" "1" 0 5).2.Expire "b" 3 6
      = (some Error.ErrKeyNotFound, ((NewMemoryDB String).Set "a" "1" 0 5).2) :=
  ⟨rfl, rfl,
    (expire_absent_ErrKeyNotFound ((NewMemoryDB String).Set "a" "1" 0 5).2 rfl "b" rfl 3 6).1⟩

/-- C10, the code at the failing input: `Set("k", "v", 1)` at clock reading
`1000` stores the expiration `1000001000`; at reading `3000000000` the entry
is expired (`Get` there returns `ErrKeyExpired`), yet `Expire("k", 0)` at
that reading returns no error instead of `ErrKeyNotFound`, and afterwards
`Get("k")` returns `"v"`. -/
theorem expire_revives_expired_entry :
    ((NewMemoryDB String).Set "k" "v" 1 1000).2.closed = false ∧
    ((NewMemoryDB String).Set "k" "v" 1 1000).2.data.lookup "k"
      = some { value := "v", expiration := 1000001000 } ∧
    (0 : Int) < 1000001000 ∧ (1000001000 : Int) < 3000000000 ∧
    (((NewMemoryDB String).Set "k" "v" 1 1000).2.Get "k" 3000000000).1
      = Except.error Error.ErrKeyExpired ∧
    (((NewMemoryDB String).Set "k" "v" 1 1000).2.Expire "k" 0 3000000000).1 = none ∧
    ((((NewMemoryDB String).Set "k" "v" 1 1000).2.Expire "k" 0 3000000000).2.Get "k"
        3000000001).1 = Except.ok "v" := by
  decide

/-- C11: on an open store in which `k` is bound to an entry with value `v`
that is not expired at the clock reading of the call, whatever its
expiration, `Expire(k, ttl)` with `ttl ≤ 0` returns no error and sets the
expiration to `0`; after any sequence of operations that contains no `Set`,
`Del` or `Expire` on `k` and no `Close`, the sequence runs to its end and
`Get(k)` at any clock reading returns `v` with no error. -/
theorem expire_nonpositive_makes_permanent {V : Type} (db : MemoryDB V)
    (hopen : db.closed = false) (k : String) (it : item V)
    (hl : db.data.lookup k = some it) (ttl : Int) (httl : ttl ≤ 0) (now : Int)
    (_hlive : it.expiredAt now = false)
    (ops : List (Op V)) (hops : ∀ op ∈ ops, op.leaves k = true) (later : Int) :
    (db.Expire k ttl now).1 = none ∧
    (db.Expire k ttl now).2.data.lookup k = some { value := it.value, expiration := 0 } ∧
    ∃ db1, run (db.Expire k ttl now).2 ops = some db1 ∧
      db1.Get k later = (Except.ok it.value, db1) := by
  have hexp : expirationFor ttl now = 0 := by
    unfold expirationFor
    rw [if_neg (by omega)]
  have hnever : ∀ r : Int,
      item.expiredAt ({ value := it.value, expiration := 0 } : item V) r = false := by
    intro r; simp [item.expiredAt]
  have hex : (db.Expire k ttl now).1 = none ∧ (db.Expire k ttl now).2.closed = false ∧
      (db.Expire k ttl now).2.data.lookup k = some { value := it.value, expiration := 0 } := by
    simp [MemoryDB.Expire, hopen, hl, hexp]
  obtain ⟨db1, hrun, hc1, hl1⟩ := run_keeps_entry k { value := it.value, expiration := 0 } ops
    (db.Expire k ttl now).2 hex.2.1 hex.2.2 hops (fun _ _ r _ => hnever r)
  refine ⟨hex.1, hex.2.2, db1, hrun, ?_⟩
  simp [MemoryDB.Get, hc1, hl1, hnever]

/-- Witness for C11: `"key1"` set with ttl 1 at reading `0`, made permanent
by `Expire("key1", 0)` at reading `500`, still readable long after, with a
sweep tick and a `Get` in between. -/
theorem expire_nonpositive_makes_permanent_witness :
    ((NewMemoryDB String).Set "key1" "value1" 1 0).2.closed = false ∧
    ((NewMemoryDB String).Set "key1" "value1" 1 0).2.data.lookup "key1"
      = some { value := "value1", expiration := 1000000000 } ∧
    (0 : Int) ≤ 0 ∧
    item.expiredAt ({ value := "value1", expiration := 1000000000 } : item String) 500
      = false ∧
    (((NewMemoryDB String).Set "key1" "value1" 1 0).2.Expire "key1" 0 500).1 = none ∧
    ∃ db1, run (((NewMemoryDB String).Set "key1" "value1" 1 0).2.Expire "key1" 0 500).2
        [Op.tick (fun _ => 60000000000), Op.get "key1" 70000000000] = some db1 ∧
      db1.Get "key1" 80000000000 = (Except.ok "value1", db1) :=
  ⟨rfl, rfl, le_refl 0, by decide,
    (expire_nonpositive_makes_permanent ((NewMemoryDB String).Set "key1" "value1" 1 0).2 rfl
      "key1" { value := "value1", expiration := 1000000000 } rfl 0 (le_refl 0) 500 (by decide)
      [Op.tick (fun _ => 60000000000), Op.get "key1" 70000000000] (by decide)
      80000000000).1,
    (expire_nonpositive_makes_permanent ((NewMemoryDB String).Set "key1" "value1" 1 0).2 rfl
      "key1" { value := "value1", expiration := 1000000000 } rfl 0 (le_refl 0) 500 (by decide)
      [Op.tick (fun _ => 60000000000), Op.get "key1" 70000000000] (by decide)
      80000000000).2.2⟩

/-- C12: on an open store in which `k` holds an entry, whatever its
expiration (permanent or a later instant; the entry is not expired at the
clock reading of the call), for `ttl > 0` and a clock reading `t ≥ 0` (the
readings of `time.Now().UnixNano()` count from 1970) with `t + ttl*10^9`
representable in `int64`, `Expire(k, ttl)` at `t` returns no error and binds
`k` to the same value with the expiration `t + ttl*10^9`, in which the
earlier expiration does not occur; `Get(k)` at any reading
`t1 > t + ttl*10^9` returns `ErrKeyExpired`, and `Get(k)` at any reading `t1`
with `t ≤ t1 ≤ t + ttl*10^9` returns the value and leaves the store as it
is. -/
theorem expire_positive_replaces_expiration {V : Type} (db : MemoryDB V)
    (hopen : db.closed = false) (k : String) (it : item V)
    (hl : db.data.lookup k = some it) (ttl : Int) (httl : ttl > 0) (t : Int)
    (ht : 0 ≤ t) (_hlive : it.expiredAt t = false)
    (hfit : inInt64 (t + ttl * 1000000000)) :
    (db.Expire k ttl t).1 = none ∧
    (db.Expire k ttl t).2.data.lookup k
      = some { value := it.value, expiration := t + ttl * 1000000000 } ∧
    (∀ t1, t1 > t + ttl * 1000000000 →
      ((db.Expire k ttl t).2.Get k t1).1 = Except.error Error.ErrKeyExpired) ∧
    (∀ t1, t ≤ t1 → t1 ≤ t + ttl * 1000000000 →
      (db.Expire k ttl t).2.Get k t1 = (Except.ok it.value, (db.Expire k ttl t).2)) := by
  have hexp : expirationFor ttl t = t + ttl * 1000000000 := by
    unfold expirationFor
    rw [if_pos httl, addInt64_mulInt64_exact t ttl hfit]
  have hpos : 0 < t + ttl * 1000000000 := by omega
  have hex : (db.Expire k ttl t).1 = none ∧ (db.Expire k ttl t).2.closed = false ∧
      (db.Expire k ttl t).2.data.lookup k
        = some { value := it.value, expiration := t + ttl * 1000000000 } := by
    simp [MemoryDB.Expire, hopen, hl, hexp]
  refine ⟨hex.1, hex.2.2, ?_, ?_⟩
  · intro t1 h1
    have he : item.expiredAt
        ({ value := it.value, expiration := t + ttl * 1000000000 } : item V) t1 = true := by
      simp [item.expiredAt, hpos, h1]
    simp [MemoryDB.Get, hex.2.1, hex.2.2, he]
  · intro t1 _ h2
    have he : item.expiredAt
        ({ value := it.value, expiration := t + ttl * 1000000000 } : item V) t1 = false := by
      simp only [item.expiredAt, Bool.and_eq_false_iff, decide_eq_false_iff_not]
      right; omega
    simp [MemoryDB.Get, hex.2.1, hex.2.2, he]

/-- Witness for C12: `"key1"` set with ttl 10 at reading `0` (expiration
`10000000000`), then `Expire("key1", 1)` at reading `1000`: the expiration
becomes `1000001000`, `Get` at `1000000500` returns the value and `Get` at
`2000001000` returns `ErrKeyExpired`, well before the earlier expiration. -/
theorem expire_positive_replaces_expiration_witness :
    ((NewMemoryDB String).Set "key1" "value1" 10 0).2.closed = false ∧
    ((NewMemoryDB String).Set "key1" "value1" 10 0).2.data.lookup "key1"
      = some { value := "value1", expiration := 10000000000 } ∧
    (1 : Int) > 0 ∧ (0 : Int) ≤ 1000 ∧
    item.expiredAt ({ value := "value1", expiration := 10000000000 } : item String) 1000
      = false ∧
    inInt64 (1000 + 1 * 1000000000) ∧
    (2000001000 : Int) > 1000 + 1 * 1000000000 ∧
    (((NewMemoryDB String).Set "key1" "value1" 10 0).2.Expire "key1" 1 1000).2.data.lookup
        "key1" = some { value := "value1", expiration := 1000 + 1 * 1000000000 } ∧
    ((((NewMemoryDB String).Set "key1" "value1" 10 0).2.Expire "key1" 1 1000).2.Get "key1"
        2000001000).1 = Except.error Error.ErrKeyExpired ∧
    ((((NewMemoryDB String).Set "key1" "value1" 10 0).2.Expire "key1" 1 1000).2.Get "key1"
        1000000500).1 = Except.ok "value1" :=
  ⟨rfl, rfl, by decide, by decide, by decide, by decide, by decide,
    (expire_positive_replaces_expiration ((NewMemoryDB String).Set "key1" "value1" 10 0).2 rfl
      "key1" { value := "value1", expiration := 10000000000 } rfl 1 (by decide) 1000
      (by decide) (by decide) (by decide)).2.1,
    (expire_positive_replaces_expiration ((NewMemoryDB String).Set "key1" "value1" 10 0).2 rfl
      "key1" { value := "value1", expiration := 10000000000 } rfl 1 (by decide) 1000
      (by decide) (by decide) (by decide)).2.2.1 2000001000 (by decide),
    congrArg Prod.fst
      ((expire_positive_replaces_expiration
        ((NewMemoryDB String).Set "key1" "value1" 10 0).2 rfl
        "key1" { value := "value1", expiration := 10000000000 } rfl 1 (by decide) 1000
        (by decide) (by decide) (by decide)).2.2.2 1000000500 (by decide) (by decide))⟩

/-- C13: on an open store, when `Expire(k, ttl)` returns no error, `k` was
bound to an entry, and afterwards `k` is bound to an entry with the same
value and the expiration computed for `ttl`; the set of keys is the same;
every key other than `k` keeps its entry; the `closed` flag and the stop
channel are unchanged. -/
theorem expire_changes_only_expiration {V : Type} (db : MemoryDB V)
    (hopen : db.closed = false) (k : String) (ttl now : Int)
    (hok : (db.Expire k ttl now).1 = none) :
    (∃ it, db.data.lookup k = some it ∧
      (db.Expire k ttl now).2.data.lookup k
        = some { value := it.value, expiration := expirationFor ttl now }) ∧
    (db.Expire k ttl now).2.data.keys = db.data.keys ∧
    (∀ k1, k1 ≠ k → (db.Expire k ttl now).2.data.lookup k1 = db.data.lookup k1) ∧
    (db.Expire k ttl now).2.closed = db.closed ∧
    (db.Expire k ttl now).2.stopCh = db.stopCh := by
  cases hl : db.data.lookup k with
  | none => simp [MemoryDB.Expire, hopen, hl] at hok
  | some it =>
    have hex : db.Expire k ttl now
        = (none, { db with
            data := db.data.insert k
              { value := it.value, expiration := expirationFor ttl now } }) := by
      simp [MemoryDB.Expire, hopen, hl]
    rw [hex]
    refine ⟨⟨it, rfl, Finmap.lookup_insert db.data⟩, ?_, ?_, rfl, rfl⟩
    · ext x
      simp only [Finmap.mem_keys, Finmap.mem_insert]
      constructor
      · rintro (h | h)
        · subst h
          exact Finmap.mem_of_lookup_eq_some hl
        · exact h
      · intro h
        exact Or.inr h
    · intro k1 hk1
      exact Finmap.lookup_insert_of_ne db.data hk1

/-- Witness for C13: `Expire("a", 7)` on the store holding `"a"` and `"b"`. -/
theorem expire_changes_only_expiration_witness :
    (((NewMemoryDB String).Set "a" "1" 0 5).2.Set "b" "2" 9 6).2.closed = false ∧
    ((((NewMemoryDB String).Set "a" "1" 0 5).2.Set "b" "2" 9 6).2.Expire "a" 7 8).1 = none ∧
    ((((NewMemoryDB String).Set "a" "1" 0 5).2.Set "b" "2" 9 6).2.Expire "a" 7 8).2.data.keys
      = (((NewMemoryDB String).Set "a" "1" 0 5).2.Set "b" "2" 9 6).2.data.keys ∧
    ∀ k1, k1 ≠ "a" →
      ((((NewMemoryDB String).Set "a" "1" 0 5).2.Set "b" "2" 9 6).2.Expire "a" 7
          8).2.data.lookup k1
        = (((NewMemoryDB String).Set "a" "1" 0 5).2.Set "b" "2" 9 6).2.data.lookup k1 :=
  ⟨rfl, rfl,
    (expire_changes_only_expiration
      (((NewMemoryDB String).Set "a" "1" 0 5).2.Set "b" "2" 9 6).2 rfl "a" 7 8 rfl).2.1,
    (expire_changes_only_expiration
      (((NewMemoryDB String).Set "a" "1" 0 5).2.Set "b" "2" 9 6).2 rfl "a" 7 8 rfl).2.2.1⟩

/-! ## Set overwrites -/

/-- C14: on an open store, `Set(k, v1, ttl1)` at any clock reading followed
by `Set(k, v2, ttl2)` at reading `t` returns no error both times and yields
exactly the store that `Set(k, v2, ttl2)` at `t` alone yields, in which `k`
is bound to `v2` with the expiration computed from `ttl2` and `t`; and a
`Set` on `k` leaves the entry of every other key unchanged. -/
theorem set_overwrites {V : Type} (db : MemoryDB V) (hopen : db.closed = false)
    (k : String) (v1 v2 : V) (ttl1 ttl2 t0 t : Int) :
    (db.Set k v1 ttl1 t0).1 = none ∧
    (db.Set k v1 ttl1 t0).2.Set k v2 ttl2 t = db.Set k v2 ttl2 t ∧
    (db.Set k v2 ttl2 t).1 = none ∧
    (db.Set k v2 ttl2 t).2.data.lookup k
      = some { value := v2, expiration := expirationFor ttl2 t } ∧
    (∀ k1, k1 ≠ k → (db.Set k v2 ttl2 t).2.data.lookup k1 = db.data.lookup k1) := by
  refine ⟨by simp [MemoryDB.Set, hopen], ?_, by simp [MemoryDB.Set, hopen],
    by simp [MemoryDB.Set, hopen], ?_⟩
  · simp [MemoryDB.Set, hopen, Finmap.insert_insert]
  · intro k1 hk1
    simp [MemoryDB.Set, hopen, Finmap.lookup_insert_of_ne _ hk1]

/-- Witness for C14: two `Set`s on `"a"` in the store that also holds `"b"`. -/
theorem set_overwrites_witness :
    ((NewMemoryDB String).Set "b" "2" 0 1).2.closed = false ∧
    (((NewMemoryDB String).Set "b" "2" 0 1).2.Set "a" "old" 5 2).2.Set "a" "new" 0 3
      = ((NewMemoryDB String).Set "b" "2" 0 1).2.Set "a" "new" 0 3 ∧
    (((NewMemoryDB String).Set "b" "2" 0 1).2.Set "a" "new" 0 3).2.data.lookup "a"
      = some { value := "new", expiration := expirationFor 0 3 } :=
  ⟨rfl,
    (set_overwrites ((NewMemoryDB String).Set "b" "2" 0 1).2 rfl "a" "old" "new" 5 0 2 3).2.1,
    (set_overwrites ((NewMemoryDB String).Set "b" "2" 0 1).2 rfl "a" "old" "new" 5 0 2
      3).2.2.2.1⟩

/-! ## The background sweep -/

/-- C15, as stated, fails.  The store obtained by `Set("k", "v", 9000000000)`
at clock reading `1700000000000000000` holds `"k"` with the expiration
`-7746744073709551616`, which is not the sentinel `0` and is strictly earlier
than `1700000000000000001`; a sweep tick at that reading leaves the entry in
the map. -/
theorem sweep_keeps_negative_expiration :
    ((NewMemoryDB String).Set "k" "v" 9000000000 1700000000000000000).2.data.lookup "k"
      = some { value := "v", expiration := -7746744073709551616 } ∧
    (-7746744073709551616 : Int) ≠ 0 ∧
    (-7746744073709551616 : Int) < 1700000000000000001 ∧
    (((NewMemoryDB String).Set "k" "v" 9000000000 1700000000000000000).2.cleanupTick
        (fun _ => 1700000000000000001)).data.lookup "k"
      = some { value := "v", expiration := -7746744073709551616 } := by
  decide

/-- C15, amended: for every store and clock reading `s`, a sweep tick at
`s` removes exactly the entries whose expiration is positive and strictly
earlier than `s`.  Such an entry is gone afterwards and no such entry
remains; every entry whose expiration is `≤ 0` or not earlier than `s` is
still bound to its key, with the same value and expiration; no entry is
added or altered; the `closed` flag and the stop channel are unchanged. -/
theorem sweep_removes_exactly_expired {V : Type} (db : MemoryDB V) (s : Int) :
    (∀ k it, db.data.lookup k = some it → 0 < it.expiration → it.expiration < s →
      (db.cleanupTick (fun _ => s)).data.lookup k = none) ∧
    (∀ k it, (db.cleanupTick (fun _ => s)).data.lookup k = some it →
      ¬ (0 < it.expiration ∧ it.expiration < s)) ∧
    (∀ k it, db.data.lookup k = some it → (it.expiration ≤ 0 ∨ s ≤ it.expiration) →
      (db.cleanupTick (fun _ => s)).data.lookup k = some it) ∧
    (∀ k it, (db.cleanupTick (fun _ => s)).data.lookup k = some it →
      db.data.lookup k = some it) ∧
    (db.cleanupTick (fun _ => s)).closed = db.closed ∧
    (db.cleanupTick (fun _ => s)).stopCh = db.stopCh := by
  refine ⟨?_, ?_, ?_, ?_, rfl, rfl⟩
  · intro k it hl hpos hpast
    rw [lookup_cleanupTick, hl]
    simp [Option.filter, item.expiredAt, hpos, hpast]
  · intro k it hl
    rw [lookup_cleanupTick] at hl
    cases hb : db.data.lookup k with
    | none => rw [hb] at hl; cases hl
    | some it0 =>
      rw [hb] at hl
      by_cases he : it0.expiredAt s = true
      · simp [Option.filter, he] at hl
      · simp only [Option.filter, he, Bool.not_false, if_true, Option.some.injEq] at hl
        subst hl
        intro hboth
        apply he
        simp [item.expiredAt, hboth.1, hboth.2]
  · intro k it hl hkeep
    rw [lookup_cleanupTick, hl]
    have he : it.expiredAt s = false := by
      simp only [item.expiredAt, Bool.and_eq_false_iff, decide_eq_false_iff_not]
      rcases hkeep with h | h
      · left; omega
      · right; omega
    simp [Option.filter, he]
  · intro k it hl
    rw [lookup_cleanupTick] at hl
    cases hb : db.data.lookup k with
    | none => rw [hb] at hl; cases hl
    | some it0 =>
      rw [hb] at hl
      by_cases he : it0.expiredAt s = true
      · simp [Option.filter, he] at hl
      · simp only [Option.filter, he, Bool.not_false, if_true, Option.some.injEq] at hl
        rw [hl]

/-- Witness for C15: a sweep tick at reading `2000000000` on the store
holding `"a"` (permanent), `"b"` (expiration `1000000000`) and `"c"`
(expiration `5000000000`). -/
theorem sweep_removes_exactly_expired_witness :
    ((((NewMemoryDB String).Set "a" "1" 0 0).2.Set "b" "2" 1 0).2.Set "c" "3" 5
        0).2.data.lookup "b" = some { value := "2", expiration := 1000000000 } ∧
    (0 : Int) < 1000000000 ∧ (1000000000 : Int) < 2000000000 ∧
    (((((NewMemoryDB String).Set "a" "1" 0 0).2.Set "b" "2" 1 0).2.Set "c" "3" 5
        0).2.cleanupTick (fun _ => 2000000000)).data.lookup "b" = none ∧
    (((((NewMemoryDB String).Set "a" "1" 0 0).2.Set "b" "2" 1 0).2.Set "c" "3" 5
        0).2.cleanupTick (fun _ => 2000000000)).data.lookup "c"
      = some { value := "3", expiration := 5000000000 } :=
  ⟨rfl, by decide, by decide,
    (sweep_removes_exactly_expired
      ((((NewMemoryDB String).Set "a" "1" 0 0).2.Set "b" "2" 1 0).2.Set "c" "3" 5 0).2
      2000000000).1 "b" { value := "2", expiration := 1000000000 } rfl
      (by decide) (by decide),
    (sweep_removes_exactly_expired
      ((((NewMemoryDB String).Set "a" "1" 0 0).2.Set "b" "2" 1 0).2.Set "c" "3" 5 0).2
      2000000000).2.2.1 "c" { value := "3", expiration := 5000000000 } rfl
      (Or.inr (by decide))⟩

/-- C20: on an open store, for a key `k` and clock readings `s ≤ t`, `Get(k)`
at `t` after a sweep tick at `s` returns a value `v` with no error exactly
when `Get(k)` at `t` without that tick does; and the two results are equal,
unless `Get` without the tick returns `ErrKeyExpired` and `Get` after the
tick returns `ErrKeyNotFound`. -/
theorem sweep_invisible_to_get {V : Type} (db : MemoryDB V) (hopen : db.closed = false)
    (k : String) (s t : Int) (hst : s ≤ t) :
    (∀ v, ((db.cleanupTick (fun _ => s)).Get k t).1 = Except.ok v
      ↔ (db.Get k t).1 = Except.ok v) ∧
    (((db.cleanupTick (fun _ => s)).Get k t).1 = (db.Get k t).1 ∨
      ((db.Get k t).1 = Except.error Error.ErrKeyExpired ∧
        ((db.cleanupTick (fun _ => s)).Get k t).1 = Except.error Error.ErrKeyNotFound)) := by
  have hc : (db.cleanupTick (fun _ => s)).closed = false := hopen
  have hlk := lookup_cleanupTick db (fun _ => s) k
  cases hb : db.data.lookup k with
  | none =>
    rw [hb] at hlk
    have hlk1 : (db.cleanupTick (fun _ => s)).data.lookup k = none := hlk
    simp [MemoryDB.Get, hopen, hc, hb, hlk1]
  | some it =>
    rw [hb] at hlk
    by_cases hes : it.expiredAt s = true
    · have het : it.expiredAt t = true := by
        simp only [item.expiredAt, Bool.and_eq_true, decide_eq_true_eq] at hes ⊢
        exact ⟨hes.1, by omega⟩
      have hlk1 : (db.cleanupTick (fun _ => s)).data.lookup k = none := by
        rw [hlk]; simp [Option.filter, hes]
      simp [MemoryDB.Get, hopen, hc, hb, hlk1, het]
    · have hlk1 : (db.cleanupTick (fun _ => s)).data.lookup k = some it := by
        rw [hlk]; simp [Option.filter, hes]
      by_cases het : it.expiredAt t = true
      · simp [MemoryDB.Get, hopen, hc, hb, hlk1, het]
      · simp [MemoryDB.Get, hopen, hc, hb, hlk1, het]

/-- Witness for C20: `"b"` with expiration `1000000000`, swept at
`2000000000` and read at `3000000000`: `ErrKeyExpired` without the tick,
`ErrKeyNotFound` after it. -/
theorem sweep_invisible_to_get_witness :
    ((NewMemoryDB String).Set "b" "2" 1 0).2.closed = false ∧
    (2000000000 : Int) ≤ 3000000000 ∧
    ((((NewMemoryDB String).Set "b" "2" 1 0).2.cleanupTick (fun _ => 2000000000)).Get "b"
        3000000000).1 = Except.error Error.ErrKeyNotFound ∧
    (((NewMemoryDB String).Set "b" "2" 1 0).2.Get "b" 3000000000).1
      = Except.error Error.ErrKeyExpired ∧
    ∀ v, ((((NewMemoryDB String).Set "b" "2" 1 0).2.cleanupTick (fun _ => 2000000000)).Get
        "b" 3000000000).1 = Except.ok v
      ↔ (((NewMemoryDB String).Set "b" "2" 1 0).2.Get "b" 3000000000).1 = Except.ok v :=
  ⟨rfl, by decide, by decide, by decide,
    (sweep_invisible_to_get ((NewMemoryDB String).Set "b" "2" 1 0).2 rfl "b" 2000000000
      3000000000 (by decide)).1⟩

/-! ## The closed state -/

/-- C17: in every store reached from a new store by a sequence of `Set`,
`Get`, `Del`, `Expire`, sweep ticks and `Close`, if the `closed` flag is set
then the map is empty.  And from such a store with the flag set, every
further operation that completes leaves the flag set and the map empty, the
four calls failing with `ErrDBClosed`; a further `Close`, which panics,
faults with the flag set and the map empty. -/
theorem closed_is_empty_and_final {V : Type} (ops : List (Op V)) (db : MemoryDB V)
    (hrun : run (NewMemoryDB V) ops = some db) :
    (db.closed = true → db.data = ∅) ∧
    (db.closed = true → ∀ (op : Op V) (db1 : MemoryDB V), step db op = some db1 →
      db1.closed = true ∧ db1.data = ∅) ∧
    (db.closed = true → ∀ key value ttl now,
      db.Set key value ttl now = (some Error.ErrDBClosed, db)) ∧
    (db.closed = true → ∀ db1, db.Close = CloseResult.panicked db1 →
      db1.closed = true ∧ db1.data = ∅) := by
  have hinv : db.closed = true → db.data = ∅ :=
    run_closed_imp_empty ops (NewMemoryDB V) (fun _ => rfl) db hrun
  refine ⟨hinv, ?_, ?_, ?_⟩
  · intro hc op db1 hstep
    exact step_closed_empty db hc (hinv hc) op db1 hstep
  · intro hc key value ttl now
    simp [MemoryDB.Set, hc]
  · intro hc db1 hp
    simp only [MemoryDB.Close] at hp
    by_cases hs : db.stopCh = true
    · simp only [hs, if_true, CloseResult.panicked.injEq] at hp
      subst hp
      exact ⟨rfl, hinv hc⟩
    · simp [hs] at hp

/-- Witness for C17: after two `Set`s, a `Close` and a further `Set`, the
store is closed and empty, and a sweep tick keeps it so. -/
theorem closed_is_empty_and_final_witness :
    run (NewMemoryDB String) [Op.set "a" "1" 0 5, Op.set "b" "2" 3 6, Op.close,
        Op.set "c" "3" 0 7]
      = some { data := ∅, closed := true, stopCh := true } ∧
    ({ data := ∅, closed := true, stopCh := true } : MemoryDB String).closed = true ∧
    ({ data := ∅, closed := true, stopCh := true } : MemoryDB String).data = ∅ ∧
    ∀ (op : Op String) (db1 : MemoryDB String),
      step ({ data := ∅, closed := true, stopCh := true } : MemoryDB String) op = some db1 →
      db1.closed = true ∧ db1.data = ∅ :=
  ⟨by decide, rfl,
    (closed_is_empty_and_final
      [Op.set "a" "1" 0 5, Op.set "b" "2" 3 6, Op.close, Op.set "c" "3" 0 7]
      { data := ∅, closed := true, stopCh := true } (by decide)).1 rfl,
    (closed_is_empty_and_final
      [Op.set "a" "1" 0 5, Op.set "b" "2" 3 6, Op.close, Op.set "c" "3" 0 7]
      { data := ∅, closed := true, stopCh := true } (by decide)).2.1 rfl⟩

/-- C19: `Close` has no guard against a second call.  On an open store
(flag clear, stop channel open) it returns; on the store it returned, and
on any store whose stop channel is already closed, it panics: the fault
comes after `closed` has been set to `true` and before the map is replaced,
so the store at the fault has the flag set and the map it had. -/
theorem close_twice_panics {V : Type} (db : MemoryDB V) :
    (db.closed = false → db.stopCh = false →
      ∃ db1, db.Close = CloseResult.returned db1 ∧ db1.Close = CloseResult.panicked db1) ∧
    (db.stopCh = true →
      db.Close = CloseResult.panicked { data := db.data, closed := true, stopCh := true }) := by
  constructor
  · intro _ hch
    refine ⟨{ data := ∅, closed := true, stopCh := true }, ?_, ?_⟩
    · simp [MemoryDB.Close, hch]
    · simp [MemoryDB.Close]
  · intro hch
    cases db with
    | mk data closed stopCh =>
      simp only at hch
      subst hch
      simp [MemoryDB.Close]

/-- Witness for C19: the store holding `"a"` is closed once, then again. -/
theorem close_twice_panics_witness :
    ((NewMemoryDB String).Set "a" "x" 0 5).2.closed = false ∧
    ((NewMemoryDB String).Set "a" "x" 0 5).2.stopCh = false ∧
    ∃ db1, ((NewMemoryDB String).Set "a" "x" 0 5).2.Close = CloseResult.returned db1 ∧
      db1.Close = CloseResult.panicked db1 :=
  ⟨rfl, rfl, (close_twice_panics ((NewMemoryDB String).Set "a" "x" 0 5).2).1 rfl rfl⟩

/-! ## Properties of the generic accessors -/

/-- The untyped `Get` never returns `ErrTypeAssertionFail`. -/
theorem untyped_get_not_type_error {V : Type} (db : MemoryDB V) (key : String) (now : Int) :
    (db.Get key now).1 ≠ Except.error Error.ErrTypeAssertionFail := by
  simp only [MemoryDB.Get]
  by_cases hc : db.closed = true
  · simp [hc]
  · simp only [hc]
    cases db.data.lookup key with
    | none => simp
    | some it => by_cases he : it.expiredAt now = true <;> simp [he]

/-- Asserting the type `T` on the conversion of a non-nil value of static
type `T` gives that value back. -/
theorem typeAssert_toIface {C : Type} [DecidableEq C] {val : C → Type} (T : TypeArg C)
    (v : T.Val val) (hv : toIface T v ≠ none) : typeAssert T (toIface T v) = some v := by
  cases T with
  | concrete c => simp [toIface, typeAssert]
  | iface implementedBy =>
    cases v with
    | none => simp [toIface] at hv
    | some x =>
      obtain ⟨x, hx⟩ := x
      simp [toIface, typeAssert, hx]

/-- A successful assertion returns the payload: the result, converted back
to `interface{}`, is the asserted value. -/
theorem toIface_of_typeAssert {C : Type} [DecidableEq C] {val : C → Type} (T : TypeArg C)
    (p : Iface C val) (r : T.Val val) (h : typeAssert T p = some r) : toIface T r = p := by
  cases T with
  | concrete c =>
    cases p with
    | none => simp [typeAssert] at h
    | some x =>
      obtain ⟨c1, x⟩ := x
      simp only [typeAssert] at h
      by_cases hc : c1 = c
      · subst hc
        simp only [dif_pos, Option.some.injEq] at h
        subst h
        rfl
      · simp [hc] at h
  | iface implementedBy =>
    cases p with
    | none => simp [typeAssert] at h
    | some x =>
      simp only [typeAssert] at h
      by_cases hi : implementedBy x.1 = true
      · simp only [hi, dif_pos, Option.some.injEq] at h
        subst h
        rfl
      · simp [hi] at h

/-- C16, as stated, fails, at the type argument `any`.  `Set[any]` of the
`nil` value succeeds, and `Get[any]` on that unexpired entry returns
`ErrTypeAssertionFail` instead of the value without an error.  And on a
stored string `"x"`, whose runtime type `string` is not `any`, `Get[any]`
returns no `ErrTypeAssertionFail` but the payload. -/
theorem typed_get_any_counterexample :
    (Set anyType (NewMemoryDB (Iface GoType GoType.val)) "k" none 0 5).1 = none ∧
    ((Set anyType (NewMemoryDB (Iface GoType GoType.val)) "k" none 0 5).2.Get "k" 6).1
      = Except.ok none ∧
    (Get GoType.zero anyType
        (Set anyType (NewMemoryDB (Iface GoType GoType.val)) "k" none 0 5).2 "k" 6).1
      = (none, some Error.ErrTypeAssertionFail) ∧
    ((Set (TypeArg.concrete GoType.string) (NewMemoryDB (Iface GoType GoType.val)) "k"
        ("x" : String) 0 5).2.Get "k" 6).1
      = Except.ok (some ⟨GoType.string, ("x" : String)⟩) ∧
    anyType ≠ TypeArg.concrete GoType.string ∧
    (Get GoType.zero anyType
        (Set (TypeArg.concrete GoType.string) (NewMemoryDB (Iface GoType GoType.val)) "k"
          ("x" : String) 0 5).2 "k" 6).1.2 = none ∧
    toIface anyType
        (Get GoType.zero anyType
          (Set (TypeArg.concrete GoType.string) (NewMemoryDB (Iface GoType GoType.val)) "k"
            ("x" : String) 0 5).2 "k" 6).1.1
      = some ⟨GoType.string, ("x" : String)⟩ :=
  ⟨rfl, rfl, rfl, rfl, by simp [anyType], rfl, rfl⟩

/-- C16, amended: for every store, key and type argument `T`, `Get[T]`
returns the store that the untyped `Get` returns, and
* when the untyped `Get` fails, that same error with the zero value of `T`;
* `ErrTypeAssertionFail` exactly when the untyped `Get` succeeds with a
  payload on which the assertion `value.(T)` fails, and then with the zero
  value of `T`; for a concrete `T` the assertion fails exactly when the
  payload is `nil` or its runtime type is not `T`, for an interface `T` and
  a non-nil payload exactly when the runtime type does not implement `T`;
* when the assertion holds, the payload with no error;
so that, on an open store, `Set[T](k, v, ttl)` succeeds and `Get[T](k)` while
the entry is unexpired returns `v` with no error, for every `v` whose
conversion to `interface{}` is not `nil`: every value of a concrete type and
every non-nil value of an interface type. -/
theorem typed_get_by_assertion {C : Type} [DecidableEq C] {val : C → Type}
    (zero : (c : C) → val c) (db : MemoryDB (Iface C val)) (key : String) (now : Int) :
    (∀ T : TypeArg C, (Get zero T db key now).2 = (db.Get key now).2) ∧
    (∀ (T : TypeArg C) (err : Error), (db.Get key now).1 = Except.error err →
      (Get zero T db key now).1 = (T.zeroValue zero, some err)) ∧
    (∀ T : TypeArg C, (Get zero T db key now).1.2 = some Error.ErrTypeAssertionFail ↔
      ∃ p, (db.Get key now).1 = Except.ok p ∧ typeAssert T p = none) ∧
    (∀ T : TypeArg C, (Get zero T db key now).1.2 = some Error.ErrTypeAssertionFail →
      (Get zero T db key now).1.1 = T.zeroValue zero) ∧
    (∀ (c : C) (p : Iface C val),
      typeAssert (TypeArg.concrete c) p = none ↔ dynamicType p ≠ some c) ∧
    (∀ (implementedBy : C → Bool) (x : Sigma val),
      typeAssert (TypeArg.iface implementedBy) (some x) = none ↔ implementedBy x.1 = false) ∧
    (∀ (T : TypeArg C) (p : Iface C val) (r : T.Val val),
      (db.Get key now).1 = Except.ok p → typeAssert T p = some r →
      (Get zero T db key now).1 = (r, none) ∧ toIface T r = p) ∧
    (∀ (T : TypeArg C) (v : T.Val val) (ttl t : Int), db.closed = false →
      toIface T v ≠ none →
      item.expiredAt ({ value := toIface T v, expiration := expirationFor ttl t } :
        item (Iface C val)) now = false →
      (Set T db key v ttl t).1 = none ∧
      (Get zero T (Set T db key v ttl t).2 key now).1 = (v, none)) := by
  refine ⟨?_, ?_, ?_, ?_, ?_, ?_, ?_, ?_⟩
  · intro T
    rcases hg : db.Get key now with ⟨r, st⟩
    cases r with
    | error err => simp [Get, hg]
    | ok p =>
      simp only [Get, hg]
      cases typeAssert T p <;> rfl
  · intro T err herr
    rcases hg : db.Get key now with ⟨r, st⟩
    rw [hg] at herr
    simp only at herr
    subst herr
    simp [Get, hg]
  · intro T
    have hne := untyped_get_not_type_error db key now
    rcases hg : db.Get key now with ⟨r, st⟩
    rw [hg] at hne
    cases r with
    | error err =>
      simp only [Get, hg]
      constructor
      · intro h
        simp only [Option.some.injEq] at h
        subst h
        exact absurd rfl hne
      · rintro ⟨p, hp, -⟩
        cases hp
    | ok p =>
      simp only [Get, hg]
      cases ha : typeAssert T p with
      | none => simp [ha]
      | some r1 => simp [ha]
  · intro T
    rcases hg : db.Get key now with ⟨r, st⟩
    cases r with
    | error err =>
      simp [Get, hg]
    | ok p =>
      simp only [Get, hg]
      cases ha : typeAssert T p with
      | none => simp
      | some r1 => simp
  · intro c p
    cases p with
    | none => simp [typeAssert, dynamicType]
    | some x =>
      by_cases hc : x.1 = c
      · simp [typeAssert, dynamicType, hc]
      · simp [typeAssert, dynamicType, hc]
  · intro implementedBy x
    by_cases hi : implementedBy x.1 = true
    · simp [typeAssert, hi]
    · simp [typeAssert, hi]
  · intro T p r hp ha
    rcases hg : db.Get key now with ⟨r0, st⟩
    rw [hg] at hp
    simp only at hp
    subst hp
    exact ⟨by simp [Get, hg, ha], toIface_of_typeAssert T p r ha⟩
  · intro T v ttl t hopen hv hlive
    have hset : (Set T db key v ttl t).1 = none ∧ (Set T db key v ttl t).2.closed = false ∧
        (Set T db key v ttl t).2.data.lookup key
          = some { value := toIface T v, expiration := expirationFor ttl t } := by
      simp [Set, MemoryDB.Set, hopen]
    refine ⟨hset.1, ?_⟩
    have hg : (Set T db key v ttl t).2.Get key now
        = (Except.ok (toIface T v), (Set T db key v ttl t).2) := by
      simp [MemoryDB.Get, hset.2.1, hset.2.2, hlive]
    simp [Get, hg, typeAssert_toIface T v hv]

/-- Witness for C16: `Set[string]("k", "x", 0)` on a new store, then
`Get[string]("k")` returns `"x"` and `Get[int]("k")` returns
`ErrTypeAssertionFail` with the zero value `0`. -/
theorem typed_get_by_assertion_witness :
    (NewMemoryDB (Iface GoType GoType.val)).closed = false ∧
    @toIface GoType GoType.val (TypeArg.concrete GoType.string) ("x" : String) ≠ none ∧
    (Get GoType.zero (TypeArg.concrete GoType.string)
        (Set (TypeArg.concrete GoType.string) (NewMemoryDB (Iface GoType GoType.val)) "k"
          ("x" : String) 0 5).2 "k" 6).1 = (("x" : String), none) ∧
    (Get GoType.zero (TypeArg.concrete GoType.int)
        (Set (TypeArg.concrete GoType.string) (NewMemoryDB (Iface GoType GoType.val)) "k"
          ("x" : String) 0 5).2 "k" 6).1.1
      = TypeArg.zeroValue GoType.zero (TypeArg.concrete GoType.int) :=
  ⟨rfl, by simp [toIface],
    ((typed_get_by_assertion GoType.zero (NewMemoryDB (Iface GoType GoType.val)) "k"
      6).2.2.2.2.2.2.2 (TypeArg.concrete GoType.string) ("x" : String) 0 5 rfl
      (by simp [toIface]) rfl).2,
    (typed_get_by_assertion GoType.zero
      (Set (TypeArg.concrete GoType.string) (NewMemoryDB (Iface GoType GoType.val)) "k"
        ("x" : String) 0 5).2 "k" 6).2.2.2.1 (TypeArg.concrete GoType.int) rfl⟩

/-! ## Lock discipline -/

/-- Any number of map writes followed by `Unlock`, started with the mutex
held exclusively, are all under the exclusive lock. -/
theorem exclusiveWrites_replicate (n : Nat) :
    exclusiveWrites LockMode.exclusive
      (List.replicate n LockEvent.write ++ [LockEvent.Unlock]) = true := by
  induction n with
  | zero => rfl
  | succ n ih =>
    rw [List.replicate_succ, List.cons_append]
    simp only [exclusiveWrites, decide_True, Bool.true_and]
    exact ih

/-- In `Set`, `Del`, `Expire`, the sweep tick and `Close`, on every store and
for all arguments, each write to the map happens while the mutex is held
exclusively. -/
theorem writers_hold_exclusive_lock {V : Type} (db : MemoryDB V) (key : String)
    (clock : String → Int) :
    exclusiveWrites LockMode.free db.SetEvents = true ∧
    exclusiveWrites LockMode.free db.DelEvents = true ∧
    exclusiveWrites LockMode.free (db.ExpireEvents key) = true ∧
    exclusiveWrites LockMode.free (db.cleanupTickEvents clock) = true ∧
    exclusiveWrites LockMode.free db.CloseEvents = true := by
  refine ⟨?_, ?_, ?_, ?_, ?_⟩
  · by_cases hc : db.closed = true <;> simp [MemoryDB.SetEvents, hc, exclusiveWrites]
  · by_cases hc : db.closed = true <;> simp [MemoryDB.DelEvents, hc, exclusiveWrites]
  · by_cases hc : db.closed = true
    · simp [MemoryDB.ExpireEvents, hc, exclusiveWrites]
    · simp only [MemoryDB.ExpireEvents, hc]
      cases db.data.lookup key <;> simp [exclusiveWrites]
  · simp only [MemoryDB.cleanupTickEvents, List.singleton_append, List.cons_append,
      exclusiveWrites]
    exact exclusiveWrites_replicate _
  · by_cases hs : db.stopCh = true <;> simp [MemoryDB.CloseEvents, hs, exclusiveWrites]

/-- C18, the code at the failing input: on the store in which `"k"` was set
with ttl 1 at clock reading `0`, `Get("k")` at reading `2000000000` takes the
read lock, deletes the entry from the map and releases the read lock: the
write to the map is not under the exclusive lock.  The call returns
`ErrKeyExpired` and the map without `"k"`. -/
theorem get_deletes_under_read_lock :
    ((NewMemoryDB String).Set "k" "v" 1 0).2.GetEvents "k" 2000000000
      = [LockEvent.RLock, LockEvent.write, LockEvent.RUnlock] ∧
    exclusiveWrites LockMode.free
      (((NewMemoryDB String).Set "k" "v" 1 0).2.GetEvents "k" 2000000000) = false ∧
    ((NewMemoryDB String).Set "k" "v" 1 0).2.Get "k" 2000000000
      = (Except.error Error.ErrKeyExpired, NewMemoryDB String) := by
  decide

end memorydb
